import Mathlib

/-!
Verification of the kago container orchestrator core.

The definitions below are a shallow embedding of the Rust sources:
`src/models.rs`, `src/store.rs`, `src/controller/mod.rs`,
`src/controller/scheduler.rs`, `src/agent.rs`, `src/api/*.rs`.
Machine integers (`u32`, `u64`) are modelled as `Nat`; `saturating_sub`
is `Nat` subtraction, and `saturating_add` clamps at `2^32 - 1`.
Strings, pod ids (uuids) and timestamps are modelled as `String`, `Nat`
and `Nat` respectively.  HashMaps keyed by name / id are modelled as
association lists whose update functions rewrite every entry with the
given key (equivalent to the source for duplicate-free key sets, which
the relevant theorems assume or establish).
-/

namespace Kago

/-- `u32::MAX`, the saturation bound for `saturating_add`. -/
def U32MAX : Nat := 2 ^ 32 - 1

/-- `Resources` from `src/models.rs`: `{ cpu_millis: u32, memory_mb: u32 }`. -/
structure Resources where
  cpu_millis : Nat
  memory_mb : Nat
deriving DecidableEq

/-- `Resources::subtract` (`saturating_sub` on both fields). -/
def Resources.subtract (a b : Resources) : Resources :=
  ⟨a.cpu_millis - b.cpu_millis, a.memory_mb - b.memory_mb⟩

/-- `Resources::fits`. -/
def Resources.fits (cap req : Resources) : Bool :=
  decide (req.cpu_millis ≤ cap.cpu_millis) && decide (req.memory_mb ≤ cap.memory_mb)

/-- `PodStatus` from `src/models.rs`. -/
inductive PodStatus where
  | Pending
  | Creating
  | Running
  | Succeeded
  | Failed
  | Terminating
  | Terminated
deriving DecidableEq

/-- `NodeStatus` from `src/models.rs`. -/
inductive NodeStatus where
  | Unknown
  | Ready
  | NotReady
deriving DecidableEq

/-- `RollingUpdateConfig` from `src/models.rs` (defaults: surge 1, unavailable 0). -/
structure RollingUpdateConfig where
  max_surge : Nat := 1
  max_unavailable : Nat := 0
deriving DecidableEq

/-- `Pod` from `src/models.rs`; the uuid is modelled as a `Nat`. -/
structure Pod where
  id : Nat
  name : String
  image : String
  resources : Resources
  deployment_name : Option String
  status : PodStatus
  container_id : Option String
  node_name : Option String
  revision : Nat
deriving DecidableEq

/-- `Deployment` from `src/models.rs`. -/
structure Deployment where
  name : String
  image : String
  replicas : Nat
  resources : Resources
  rolling_update : RollingUpdateConfig
  revision : Nat
deriving DecidableEq

/-- `format!("{}-{}", deployment.name, index)`. -/
def mkPodName (base : String) (index : Nat) : String :=
  base ++ "-" ++ Nat.repr index

/-- `Pod::from_deployment` (the fresh uuid is passed in as `id`). -/
def Pod.from_deployment (d : Deployment) (index : Nat) (id : Nat) : Pod :=
  { id := id
    name := mkPodName d.name index
    image := d.image
    resources := d.resources
    deployment_name := some d.name
    status := .Pending
    container_id := none
    node_name := none
    revision := d.revision }

/-- `Node` from `src/models.rs`; `last_heartbeat` is an abstract `Nat` timestamp. -/
structure Node where
  name : String
  address : String
  port : Nat
  capacity : Resources
  allocatable : Resources
  used : Resources
  status : NodeStatus
  last_heartbeat : Nat
deriving DecidableEq

/-- `Node::new` (registration time passed as `now`). -/
def Node.new (name address : String) (port : Nat) (capacity : Resources) (now : Nat) : Node :=
  { name := name
    address := address
    port := port
    capacity := capacity
    allocatable := capacity
    used := ⟨0, 0⟩
    status := .Ready
    last_heartbeat := now }

/-- `Node::available_resources`. -/
def Node.available_resources (n : Node) : Resources :=
  n.allocatable.subtract n.used

/-- `Node::can_fit`. -/
def Node.can_fit (n : Node) (request : Resources) : Bool :=
  n.available_resources.fits request

/-- `UpdateDeploymentRequest` from `src/models.rs`. -/
structure UpdateDeploymentRequest where
  replicas : Option Nat
  image : Option String
deriving DecidableEq

/-- `PodStatusReport` from `src/models.rs`. -/
structure PodStatusReport where
  pod_id : Nat
  status : PodStatus
  container_id : Option String
deriving DecidableEq

/-- `HeartbeatRequest` from `src/models.rs`. -/
structure HeartbeatRequest where
  used : Resources
  pod_statuses : List PodStatusReport
deriving DecidableEq

/-- `RegisterNodeRequest` from `src/models.rs`. -/
structure RegisterNodeRequest where
  name : String
  address : String
  port : Nat
  capacity : Resources
deriving DecidableEq

/-! ## The store (`src/store.rs`) -/

/-- The in-memory `Store`; the three HashMaps become lists. -/
structure Store where
  deployments : List Deployment
  pods : List Pod
  nodes : List Node
deriving DecidableEq

/-- `Store::get_pod`. -/
def Store.get_pod (s : Store) (id : Nat) : Option Pod :=
  s.pods.find? (fun p => p.id == id)

/-- `Store::get_node`. -/
def Store.get_node (s : Store) (name : String) : Option Node :=
  s.nodes.find? (fun n => n.name == name)

/-- `Store::get_deployment`. -/
def Store.get_deployment (s : Store) (name : String) : Option Deployment :=
  s.deployments.find? (fun d => d.name == name)

/-- `Store::upsert_deployment` (HashMap insert: replace existing key, else add). -/
def Store.upsert_deployment (s : Store) (d : Deployment) : Store :=
  if s.deployments.any (fun e => e.name == d.name) then
    { s with deployments := s.deployments.map (fun e => if e.name = d.name then d else e) }
  else
    { s with deployments := s.deployments ++ [d] }

/-- `Store::add_pod` (HashMap insert keyed by pod id). -/
def Store.add_pod (s : Store) (p : Pod) : Store :=
  if s.pods.any (fun q => q.id == p.id) then
    { s with pods := s.pods.map (fun q => if q.id = p.id then p else q) }
  else
    { s with pods := s.pods ++ [p] }

/-- `Store::update_pod_status` (updates the entry with the given id). -/
def Store.update_pod_status (s : Store) (id : Nat) (st : PodStatus) : Store :=
  { s with pods := s.pods.map (fun p => if p.id = id then { p with status := st } else p) }

/-- `Store::assign_pod_to_node`. -/
def Store.assign_pod_to_node (s : Store) (id : Nat) (node_name : String) : Store :=
  { s with pods := s.pods.map (fun p =>
      if p.id = id then { p with node_name := some node_name } else p) }

/-- `Store::delete_pod`. -/
def Store.delete_pod (s : Store) (id : Nat) : Store :=
  { s with pods := s.pods.filter (fun p => !(p.id == id)) }

/-- Predicate of `Store::count_active_pods_for_deployment`: not Terminated/Failed. -/
def Pod.isActiveFor (p : Pod) (dname : String) : Bool :=
  p.deployment_name == some dname &&
    !(p.status == .Terminated) && !(p.status == .Failed)

/-- `Store::count_active_pods_for_deployment`. -/
def Store.count_active_pods_for_deployment (s : Store) (dname : String) : Nat :=
  (s.pods.filter (fun p => p.isActiveFor dname)).length

/-- Predicate of `Store::get_old_revision_pods` / `get_old_pods_to_terminate`:
deployment matches, `revision < current`, status not Terminated/Terminating/Failed. -/
def Pod.isOldEligible (p : Pod) (dname : String) (current : Nat) : Bool :=
  p.deployment_name == some dname && decide (p.revision < current) &&
    !(p.status == .Terminated) && !(p.status == .Terminating) && !(p.status == .Failed)

/-- `Store::get_old_revision_pods`. -/
def Store.get_old_revision_pods (s : Store) (dname : String) (current : Nat) : List Pod :=
  s.pods.filter (fun p => p.isOldEligible dname current)

/-- `Store::count_running_pods_for_revision`. -/
def Store.count_running_pods_for_revision (s : Store) (dname : String) (rev : Nat) : Nat :=
  (s.pods.filter (fun p =>
    p.deployment_name == some dname && decide (p.revision = rev) && p.status == .Running)).length

/-- `Store::count_active_pods_for_revision` (not Terminated/Failed). -/
def Store.count_active_pods_for_revision (s : Store) (dname : String) (rev : Nat) : Nat :=
  (s.pods.filter (fun p =>
    p.deployment_name == some dname && decide (p.revision = rev) &&
      !(p.status == .Terminated) && !(p.status == .Failed))).length

/-- The descending-by-name order used by `sort_by(|a, b| b.name.cmp(&a.name))`. -/
def podNameGe (a b : Pod) : Prop := b.name ≤ a.name

instance : DecidableRel podNameGe := fun a b => inferInstanceAs (Decidable (b.name ≤ a.name))

instance : IsTotal Pod podNameGe := ⟨fun a b => (le_total b.name a.name)⟩

instance : IsTrans Pod podNameGe := ⟨fun _ _ _ hab hbc => le_trans hbc hab⟩

/-- `Store::get_old_pods_to_terminate`: eligible old pods sorted by name
descending, first `count` ids. -/
def Store.get_old_pods_to_terminate (s : Store) (dname : String) (current count : Nat) :
    List Nat :=
  (((s.pods.filter (fun p => p.isOldEligible dname current)).insertionSort podNameGe).take
    count).map (fun p => p.id)

/-- Predicate of `Store::get_pods_to_terminate`: active and not Terminating. -/
def Pod.isTermEligible (p : Pod) (dname : String) : Bool :=
  p.deployment_name == some dname &&
    !(p.status == .Terminated) && !(p.status == .Terminating) && !(p.status == .Failed)

/-- `Store::get_pods_to_terminate`. -/
def Store.get_pods_to_terminate (s : Store) (dname : String) (count : Nat) : List Nat :=
  (((s.pods.filter (fun p => p.isTermEligible dname)).insertionSort podNameGe).take
    count).map (fun p => p.id)

/-- `Store::register_node` (HashMap insert keyed by node name). -/
def Store.register_node (s : Store) (n : Node) : Store :=
  if s.nodes.any (fun m => m.name == n.name) then
    { s with nodes := s.nodes.map (fun m => if m.name = n.name then n else m) }
  else
    { s with nodes := s.nodes ++ [n] }

/-- `Store::update_node_heartbeat`: sets `last_heartbeat = now` and `status = Ready`. -/
def Store.update_node_heartbeat (s : Store) (name : String) (now : Nat) : Store :=
  { s with nodes := s.nodes.map (fun n =>
      if n.name = name then { n with last_heartbeat := now, status := .Ready } else n) }

/-- `Store::update_node_resources`: overwrites `used` from a heartbeat. -/
def Store.update_node_resources (s : Store) (name : String) (used : Resources) : Store :=
  { s with nodes := s.nodes.map (fun n =>
      if n.name = name then { n with used := used } else n) }

/-- `Store::allocate_resources_on_node`: guarded by `can_fit`, then plain add
(no overflow is possible in `u32` once the guard passes). -/
def Store.allocate_resources_on_node (s : Store) (name : String) (r : Resources) : Store :=
  { s with nodes := s.nodes.map (fun n =>
      if n.name = name then
        if n.can_fit r then
          { n with used := ⟨n.used.cpu_millis + r.cpu_millis, n.used.memory_mb + r.memory_mb⟩ }
        else n
      else n) }

/-- `Store::deallocate_resources_on_node` (`saturating_sub`). -/
def Store.deallocate_resources_on_node (s : Store) (name : String) (r : Resources) : Store :=
  { s with nodes := s.nodes.map (fun n =>
      if n.name = name then
        { n with used := ⟨n.used.cpu_millis - r.cpu_millis, n.used.memory_mb - r.memory_mb⟩ }
      else n) }

/-! ## Agent state (`src/agent.rs`) and the combined system state -/

/-- `ManagedPod` from `src/agent.rs`. -/
structure AgentPod where
  pod_id : Nat
  name : String
  resources : Resources
  container_id : Option String
  status : PodStatus
deriving DecidableEq

/-- Master store plus the local pod map of every node agent
(`AgentState.pods`), keyed by node name. -/
structure SystemState where
  store : Store
  agents : List (String × List AgentPod)
deriving DecidableEq

/-- Look up the local pod map of the agent on node `node`. -/
def agentLookup (agents : List (String × List AgentPod)) (node : String) :
    Option (List AgentPod) :=
  (agents.find? (fun e => e.1 == node)).map (fun e => e.2)

/-- Replace the local pod map of the agent on node `node`. -/
def agentsUpdate (agents : List (String × List AgentPod)) (node : String)
    (aps : List AgentPod) : List (String × List AgentPod) :=
  agents.map (fun e => if e.1 = node then (e.1, aps) else e)

/-- The agent's `DELETE /pods/{name}` handler (`src/agent.rs`, `delete_pod`):
find the pod by name; absent means 404 (`false`); otherwise set it
Terminating, stop/remove the container, remove it from the local map and
return 200 (`true`). -/
def agentDeletePodHandler (aps : List AgentPod) (name : String) :
    Bool × List AgentPod :=
  match aps.find? (fun p => p.name == name) with
  | none => (false, aps)
  | some ap => (true, aps.filter (fun p => !(p.pod_id == ap.pod_id)))

/-- The master's `DELETE {endpoint}/pods/{name}` call: `false` stands for both
a transport error (no agent reachable at that node) and a non-2xx response. -/
def callAgentDeletePod (agents : List (String × List AgentPod)) (node name : String) :
    Bool × List (String × List AgentPod) :=
  match agentLookup agents node with
  | none => (false, agents)
  | some aps =>
      let r := agentDeletePodHandler aps name
      (r.1, agentsUpdate agents node r.2)

/-- `Controller::terminate_pod` (`src/controller/mod.rs:336-411`): snapshot the
pod; set Terminating; if a node is assigned and known, call its agent and on
2xx deallocate the pod's resources; finally set Terminated on success
(or when no node was assigned) and revert to Running on failure. -/
def terminate_pod (s : SystemState) (pod_id : Nat) : SystemState :=
  match s.store.get_pod pod_id with
  | none => s
  | some pod =>
    let s1 : SystemState := { s with store := s.store.update_pod_status pod_id .Terminating }
    match pod.node_name with
    | none =>
        { s1 with store := s1.store.update_pod_status pod_id .Terminated }
    | some n =>
        match s1.store.get_node n with
        | none =>
            { s1 with store := s1.store.update_pod_status pod_id .Running }
        | some _node =>
            let r := callAgentDeletePod s1.agents n pod.name
            if r.1 then
              { store := (s1.store.deallocate_resources_on_node n pod.resources).update_pod_status
                  pod_id .Terminated
                agents := r.2 }
            else
              { store := s1.store.update_pod_status pod_id .Running, agents := r.2 }

/-- The user-facing `DELETE /pods/{uuid}` handler (`src/api/pods.rs:46-83`):
404 when the pod is unknown, otherwise it invokes
`controller.terminate_pod(pod_id)` and returns 200.  The `Bool` is the
found/not-found outcome. -/
def api_delete_pod (s : SystemState) (pod_id : Nat) : SystemState × Bool :=
  match s.store.get_pod pod_id with
  | none => (s, false)
  | some _pod => (terminate_pod s pod_id, true)

/-! ## PUT /deployments/{name} (`src/api/deployments.rs`, `update_deployment`) -/

/-- Core of the `update_deployment` handler: apply the optional `replicas`
and `image` fields of the request to the stored deployment. -/
def update_deployment (d : Deployment) (req : UpdateDeploymentRequest) : Deployment :=
  let d1 := match req.replicas with
    | some r => { d with replicas := r }
    | none => d
  match req.image with
    | some img => { d1 with image := img }
    | none => d1

/-! ## Helper lemmas about keyed list updates -/

theorem find?_keyed_update {α : Type} (key : α → Nat) (l : List α) (k : Nat)
    (g : α → α) (hg : ∀ a, key (g a) = key a) :
    (l.map (fun a => if key a = k then g a else a)).find? (fun a => key a == k)
      = (l.find? (fun a => key a == k)).map g := by
  induction l with
  | nil => rfl
  | cons a t ih =>
    simp only [List.map_cons, List.find?_cons]
    by_cases h : key a = k
    · simp [h, hg]
    · have hb : (key a == k) = false := by simp [h]
      simp [h, hb, ih]

theorem find?_skeyed_update {α : Type} (key : α → String) (l : List α) (k : String)
    (g : α → α) (hg : ∀ a, key (g a) = key a) :
    (l.map (fun a => if key a = k then g a else a)).find? (fun a => key a == k)
      = (l.find? (fun a => key a == k)).map g := by
  induction l with
  | nil => rfl
  | cons a t ih =>
    simp only [List.map_cons, List.find?_cons]
    by_cases h : key a = k
    · simp [h, hg]
    · have hb : (key a == k) = false := by simp [h]
      simp [h, hb, ih]

theorem get_pod_update_pod_status (s : Store) (id : Nat) (st : PodStatus) :
    (s.update_pod_status id st).get_pod id
      = (s.get_pod id).map (fun p => { p with status := st }) := by
  unfold Store.update_pod_status Store.get_pod
  exact find?_keyed_update Pod.id s.pods id (fun p => { p with status := st }) (fun _ => rfl)

theorem get_pod_assign (s : Store) (id : Nat) (n : String) :
    (s.assign_pod_to_node id n).get_pod id
      = (s.get_pod id).map (fun p => { p with node_name := some n }) := by
  unfold Store.assign_pod_to_node Store.get_pod
  exact find?_keyed_update Pod.id s.pods id (fun p => { p with node_name := some n })
    (fun _ => rfl)

theorem get_pod_dealloc (s : Store) (n : String) (r : Resources) (id : Nat) :
    (s.deallocate_resources_on_node n r).get_pod id = s.get_pod id := rfl

theorem get_pod_alloc (s : Store) (n : String) (r : Resources) (id : Nat) :
    (s.allocate_resources_on_node n r).get_pod id = s.get_pod id := rfl

theorem get_node_update_pod_status (s : Store) (id : Nat) (st : PodStatus) (n : String) :
    (s.update_pod_status id st).get_node n = s.get_node n := rfl

theorem get_node_assign (s : Store) (id : Nat) (m : String) (n : String) :
    (s.assign_pod_to_node id m).get_node n = s.get_node n := rfl

theorem get_node_dealloc (s : Store) (n : String) (r : Resources) :
    (s.deallocate_resources_on_node n r).get_node n
      = (s.get_node n).map (fun node =>
          { node with used := ⟨node.used.cpu_millis - r.cpu_millis,
                              node.used.memory_mb - r.memory_mb⟩ }) := by
  unfold Store.deallocate_resources_on_node Store.get_node
  exact find?_skeyed_update Node.name s.nodes n _ (fun _ => rfl)

theorem update_pod_status_update_pod_status (s : Store) (id : Nat) (st1 st2 : PodStatus) :
    (s.update_pod_status id st1).update_pod_status id st2 = s.update_pod_status id st2 := by
  unfold Store.update_pod_status
  cases s with
  | mk deps pods nodes =>
    simp only [List.map_map, Store.mk.injEq, true_and, and_true]
    apply List.map_congr_left
    intro p _
    by_cases h : p.id = id <;> simp [h, Function.comp]

theorem agentLookup_agentsUpdate (agents : List (String × List AgentPod))
    (node : String) (aps : List AgentPod) (h : (agentLookup agents node).isSome) :
    agentLookup (agentsUpdate agents node aps) node = some aps := by
  unfold agentLookup agentsUpdate at *
  induction agents with
  | nil => simp at h
  | cons e t ih =>
    simp only [List.map_cons, List.find?_cons] at *
    by_cases he : e.1 = node
    · simp [he]
    · have hb : (e.1 == node) = false := by simp [he]
      simp only [if_neg he, hb] at *
      exact ih h

/-! ## Reconciler (`src/controller/mod.rs`) -/

/-- The active-name set built by `create_pod_for_deployment`
(`src/controller/mod.rs:313-327`): names of the deployment's pods whose
status is not Terminated/Failed. -/
def activeNamesFor (pods : List Pod) (dname : String) : List String :=
  (pods.filter (fun p => p.isActiveFor dname)).map (fun p => p.name)

/-- The `while existing_names.contains(...) { final_index += 1 }` scan of
`create_pod_for_deployment`, with explicit fuel.  The callers pass fuel
`names.length + 1`, which always suffices because the candidate names are
pairwise distinct. -/
def firstFreeFrom (names : List String) (base : String) : Nat → Nat → Nat
  | 0, i => i
  | fuel + 1, i =>
      if names.contains (mkPodName base i) then firstFreeFrom names base fuel (i + 1)
      else i

/-- `Controller::create_pod_for_deployment` (`src/controller/mod.rs:308-334`);
the fresh uuid is passed in as `id`. -/
def create_pod_for_deployment (d : Deployment) (pods : List Pod) (index : Nat)
    (id : Nat) : Pod :=
  Pod.from_deployment d
    (firstFreeFrom (activeNamesFor pods d.name) d.name
      ((activeNamesFor pods d.name).length + 1) index)
    id

/-- The pod-creation loop shared by `reconcile_normal` and
`reconcile_rolling_update`: create `k` pods, the `i`-th with start index
`cur + i`, adding each to the store before the next is built.  Fresh uuids
are drawn from `ids`.  Returns the final store and the created pods in
creation order. -/
def scaleUpLoop (d : Deployment) (cur : Nat) :
    Store → Nat → Nat → List Nat → Store × List Pod
  | s, 0, _, _ => (s, [])
  | s, k + 1, i, ids =>
      let pod := create_pod_for_deployment d s.pods (cur + i) ids.headI
      let rest := scaleUpLoop d cur (s.add_pod pod) k (i + 1) ids.tail
      (rest.1, pod :: rest.2)

/-- `Controller::reconcile_normal` (`src/controller/mod.rs:152-201`): scale up
by creating `des - cur` pods, or scale down by selecting `cur - des` victims
via `get_pods_to_terminate`.  Returns the store after creations, the created
pods, and the victim pod ids handed to `terminate_pod`. -/
def reconcile_normal (d : Deployment) (s : Store) (ids : List Nat) :
    Store × List Pod × List Nat :=
  let cur := s.count_active_pods_for_deployment d.name
  if cur < d.replicas then
    let res := scaleUpLoop d cur s (d.replicas - cur) 0 ids
    (res.1, res.2, [])
  else if d.replicas < cur then
    (s, [], s.get_pods_to_terminate d.name (cur - d.replicas))
  else (s, [], [])

/-- The `old_running` snapshot of `reconcile_rolling_update`: Running pods
among `get_old_revision_pods`. -/
def oldRunningCount (d : Deployment) (s : Store) : Nat :=
  ((s.get_old_revision_pods d.name d.revision).filter
    (fun p => p.status == .Running)).length

/-- The `to_create = can_create.min(new_pods_needed)` computation of
`reconcile_rolling_update` (`src/controller/mod.rs:238-241`). -/
def rollingToCreate (d : Deployment) (s : Store) : Nat :=
  min (d.replicas + d.rolling_update.max_surge
        - (s.count_active_pods_for_revision d.name d.revision
           + (s.get_old_revision_pods d.name d.revision).length))
      (d.replicas - s.count_active_pods_for_revision d.name d.revision)

/-- The `can_terminate` computation of `reconcile_rolling_update`
(`src/controller/mod.rs:260-274`). -/
def rollingCanTerminate (d : Deployment) (s : Store) : Nat :=
  if d.replicas - d.rolling_update.max_unavailable
      < s.count_running_pods_for_revision d.name d.revision + oldRunningCount d s then
    if 0 < s.count_running_pods_for_revision d.name d.revision
        ∨ 0 < d.rolling_update.max_unavailable then
      min (s.count_running_pods_for_revision d.name d.revision + oldRunningCount d s
            - (d.replicas - d.rolling_update.max_unavailable))
          (oldRunningCount d s)
    else 0
  else 0

/-- `Controller::reconcile_rolling_update` (`src/controller/mod.rs:203-306`):
snapshot the revision counts, create `min(can_create, new_pods_needed)`
new-revision pods, then select old-revision victims under the
`max_unavailable` constraint (re-reading the store, as the source does).
Returns the store after creations, the created pods, and the victim pod ids
handed to `terminate_pod`. -/
def reconcile_rolling_update (d : Deployment) (s : Store) (ids : List Nat) :
    Store × List Pod × List Nat :=
  let res := scaleUpLoop d (s.count_active_pods_for_revision d.name d.revision) s
    (rollingToCreate d s) 0 ids
  let victims :=
    if 0 < rollingCanTerminate d s
        ∧ 0 < (s.get_old_revision_pods d.name d.revision).length then
      res.1.get_old_pods_to_terminate d.name d.revision (rollingCanTerminate d s)
    else []
  (res.1, res.2, victims)

/-! ## Scheduler per-cycle cache (`src/controller/scheduler.rs`) -/

/-- `u32::saturating_add`. -/
def satAdd (x y : Nat) : Nat := min (x + y) U32MAX

/-- `NodeCacheEntry` from `src/controller/scheduler.rs`. -/
structure NodeCacheEntry where
  name : String
  endpoint : String
  available : Resources
  capacity : Resources
deriving DecidableEq

/-- `NodeCacheEntry::can_fit`. -/
def NodeCacheEntry.can_fit (e : NodeCacheEntry) (request : Resources) : Bool :=
  e.available.fits request

/-- `NodeCacheEntry::reserve` (`saturating_sub` on both fields). -/
def NodeCacheEntry.reserve (e : NodeCacheEntry) (request : Resources) : NodeCacheEntry :=
  { e with available := ⟨e.available.cpu_millis - request.cpu_millis,
                         e.available.memory_mb - request.memory_mb⟩ }

/-- `NodeCacheEntry::release` (`saturating_add` on both fields). -/
def NodeCacheEntry.release (e : NodeCacheEntry) (request : Resources) : NodeCacheEntry :=
  { e with available := ⟨satAdd e.available.cpu_millis request.cpu_millis,
                         satAdd e.available.memory_mb request.memory_mb⟩ }

/-- `Scheduler::release_node_reservation`: release on the first cache entry
with the given name (`iter_mut().find`). -/
def release_node_reservation : List NodeCacheEntry → String → Resources →
    List NodeCacheEntry
  | [], _, _ => []
  | e :: t, node_name, r =>
      if e.name = node_name then e.release r :: t
      else e :: release_node_reservation t node_name r

/-- The store writes of `bind_pod_to_node` up to the agent call, followed by
the failure branch (`mark_pod_failed` + cache release): assign the node,
allocate in the store, set Creating; then on agent failure set Failed,
deallocate in the store and release the cache reservation
(`src/controller/scheduler.rs:205-302`). -/
def bind_pod_fail (s : Store) (cache : List NodeCacheEntry) (pod_id : Nat)
    (resources : Resources) (node_name : String) : Store × List NodeCacheEntry :=
  (((((s.assign_pod_to_node pod_id node_name).allocate_resources_on_node
        node_name resources).update_pod_status pod_id .Creating).update_pod_status
        pod_id .Failed).deallocate_resources_on_node node_name resources,
   release_node_reservation cache node_name resources)

/-- One iteration of `schedule_pending_pods` for a pod whose chosen node is
`cache[idx]` and whose agent call fails: reserve on the cache entry before
the call, then run the binding with the failure branch. -/
def scheduleStepFail (s : Store) (cache : List NodeCacheEntry) (pod_id : Nat)
    (resources : Resources) (idx : Nat) : Store × List NodeCacheEntry :=
  match cache.get? idx with
  | none => (s, cache)
  | some e => bind_pod_fail s (cache.set idx (e.reserve resources)) pod_id resources e.name

/-! ## POST /nodes/register and POST /nodes/{name}/heartbeat (`src/api/nodes.rs`) -/

/-- The `register_node` handler (`src/api/nodes.rs:15-60`): 400 on an empty
name (`false`), otherwise build `Node::new` and insert it into the store,
replacing any existing node of the same name. -/
def register_node (s : Store) (req : RegisterNodeRequest) (now : Nat) : Store × Bool :=
  if req.name = "" then (s, false)
  else (s.register_node (Node.new req.name req.address req.port req.capacity now), true)

/-- Body of the heartbeat handler's report loop for the reported pod
(`src/api/nodes.rs:125-145`): copy the status when it differs and the current
status is not Terminated/Terminating, and copy the container id whenever the
report carries one. -/
def reportApply (r : PodStatusReport) (p : Pod) : Pod :=
  let p1 := if p.status ≠ r.status ∧ p.status ≠ .Terminated ∧ p.status ≠ .Terminating
    then { p with status := r.status } else p
  match r.container_id with
  | some c => { p1 with container_id := some c }
  | none => p1

/-- One iteration of the heartbeat handler's report loop: locate the reported
pod (if it exists) and apply `reportApply` to it. -/
def applyPodReport (pods : List Pod) (r : PodStatusReport) : List Pod :=
  pods.map (fun p => if p.id = r.pod_id then reportApply r p else p)

/-- The `node_heartbeat` handler (`src/api/nodes.rs:106-151`): 404 when the
node is unknown (`false`); otherwise update `last_heartbeat` (and `Ready`),
overwrite `used`, and run the report loop. -/
def node_heartbeat (s : Store) (name : String) (req : HeartbeatRequest) (now : Nat) :
    Store × Bool :=
  if (s.get_node name).isNone then (s, false)
  else
    let s2 := (s.update_node_heartbeat name now).update_node_resources name req.used
    ({ s2 with pods := req.pod_statuses.foldl applyPodReport s2.pods }, true)

/-! ## Observations on the system state -/

/-- The master's record of pod `id`. -/
def SystemState.podOf (s : SystemState) (id : Nat) : Option Pod :=
  s.store.get_pod id

/-- The master's resource accounting for node `n`. -/
def SystemState.usedOn (s : SystemState) (n : String) : Option Resources :=
  (s.store.get_node n).map (fun node => node.used)

/-! ## Case analysis of `terminate_pod` -/

theorem dealloc_update_comm (s : Store) (id : Nat) (st : PodStatus) (n : String)
    (r : Resources) :
    (s.update_pod_status id st).deallocate_resources_on_node n r
      = (s.deallocate_resources_on_node n r).update_pod_status id st := rfl

theorem terminate_pod_absent (s : SystemState) (id : Nat)
    (h : s.store.get_pod id = none) : terminate_pod s id = s := by
  unfold terminate_pod
  rw [h]

theorem terminate_pod_no_node (s : SystemState) (id : Nat) (p : Pod)
    (hp : s.store.get_pod id = some p) (hn : p.node_name = none) :
    terminate_pod s id = { s with store := s.store.update_pod_status id .Terminated } := by
  unfold terminate_pod
  rw [hp]
  simp only [hn, update_pod_status_update_pod_status]

theorem terminate_pod_node_unknown (s : SystemState) (id : Nat) (p : Pod) (n : String)
    (hp : s.store.get_pod id = some p) (hn : p.node_name = some n)
    (hnode : s.store.get_node n = none) :
    terminate_pod s id = { s with store := s.store.update_pod_status id .Running } := by
  unfold terminate_pod
  rw [hp]
  simp only [hn, get_node_update_pod_status, hnode, update_pod_status_update_pod_status]

theorem terminate_pod_agent_ok (s : SystemState) (id : Nat) (p : Pod) (n : String)
    (node : Node) (hp : s.store.get_pod id = some p) (hn : p.node_name = some n)
    (hnode : s.store.get_node n = some node)
    (hcall : (callAgentDeletePod s.agents n p.name).1 = true) :
    terminate_pod s id =
      { store := (s.store.deallocate_resources_on_node n p.resources).update_pod_status
          id .Terminated
        agents := (callAgentDeletePod s.agents n p.name).2 } := by
  unfold terminate_pod
  rw [hp]
  simp only [hn, get_node_update_pod_status, hnode, hcall, if_true,
    dealloc_update_comm, update_pod_status_update_pod_status]

theorem terminate_pod_agent_fail (s : SystemState) (id : Nat) (p : Pod) (n : String)
    (node : Node) (hp : s.store.get_pod id = some p) (hn : p.node_name = some n)
    (hnode : s.store.get_node n = some node)
    (hcall : (callAgentDeletePod s.agents n p.name).1 = false) :
    terminate_pod s id =
      { store := s.store.update_pod_status id .Running
        agents := (callAgentDeletePod s.agents n p.name).2 } := by
  unfold terminate_pod
  rw [hp]
  simp only [hn, get_node_update_pod_status, hnode, hcall,
    update_pod_status_update_pod_status, if_false, Bool.false_eq_true]

/-- Whenever the pod exists, a `terminate_pod` call leaves its status at
`Terminated` or `Running`, never at `Terminating`. -/
theorem terminate_pod_final_status (s : SystemState) (id : Nat) (p : Pod)
    (hp : s.store.get_pod id = some p) :
    ((terminate_pod s id).podOf id).map Pod.status = some .Terminated ∨
      ((terminate_pod s id).podOf id).map Pod.status = some .Running := by
  cases hn : p.node_name with
  | none =>
    left
    rw [terminate_pod_no_node s id p hp hn]
    simp [SystemState.podOf, get_pod_update_pod_status, hp]
  | some n =>
    cases hnode : s.store.get_node n with
    | none =>
      right
      rw [terminate_pod_node_unknown s id p n hp hn hnode]
      simp [SystemState.podOf, get_pod_update_pod_status, hp]
    | some node =>
      cases hcall : (callAgentDeletePod s.agents n p.name).1 with
      | true =>
        left
        rw [terminate_pod_agent_ok s id p n node hp hn hnode hcall]
        simp [SystemState.podOf, get_pod_update_pod_status, get_pod_dealloc, hp]
      | false =>
        right
        rw [terminate_pod_agent_fail s id p n node hp hn hnode hcall]
        simp [SystemState.podOf, get_pod_update_pod_status, hp]

theorem find?_keyed_update_ne {α : Type} (key : α → Nat) (l : List α) (k k' : Nat)
    (g : α → α) (hg : ∀ a, key (g a) = key a) (hne : k' ≠ k) :
    (l.map (fun a => if key a = k' then g a else a)).find? (fun a => key a == k)
      = l.find? (fun a => key a == k) := by
  induction l with
  | nil => rfl
  | cons a t ih =>
    simp only [List.map_cons, List.find?_cons]
    by_cases ha : key a = k'
    · have hak : ¬ key a = k := fun h => hne (ha ▸ h)
      have h1 : (key (if key a = k' then g a else a) == k) = false := by
        rw [if_pos ha, hg]
        simp [hak]
      have h2 : (key a == k) = false := by simp [hak]
      simp [h1, h2, ih]
    · by_cases hak : key a = k
      · have h1 : (key a == k) = true := by simp [hak]
        simp [if_neg ha, h1]
      · have h1 : (key (if key a = k' then g a else a) == k) = false := by
          rw [if_neg ha]
          simp [hak]
        have h2 : (key a == k) = false := by simp [hak]
        simp [h1, h2, ih]

theorem find?_map_replace_of_any {α : Type} (key : α → String) (l : List α) (b : α)
    (h : l.any (fun a => key a == key b) = true) :
    (l.map (fun a => if key a = key b then b else a)).find? (fun a => key a == key b)
      = some b := by
  induction l with
  | nil => simp at h
  | cons a t ih =>
    simp only [List.any_cons, Bool.or_eq_true] at h
    simp only [List.map_cons, List.find?_cons]
    by_cases ha : key a = key b
    · simp [ha]
    · have hb : (key a == key b) = false := by simp [ha]
      simp only [if_neg ha, hb]
      exact ih (h.resolve_left (by simp [ha]))

theorem find?_append_singleton {α : Type} (key : α → String) (l : List α) (b : α)
    (h : l.any (fun a => key a == key b) = false) :
    (l ++ [b]).find? (fun a => key a == key b) = some b := by
  induction l with
  | nil => simp [List.find?_cons]
  | cons a t ih =>
    by_cases hb : (key a == key b) = true
    · rw [List.any_cons, hb] at h
      simp at h
    · have hb' : (key a == key b) = false := by simpa using hb
      simp only [List.cons_append, List.find?_cons, hb']
      apply ih
      rw [List.any_cons, hb'] at h
      simpa using h

theorem get_node_register (s : Store) (n : Node) :
    (s.register_node n).get_node n.name = some n := by
  unfold Store.register_node Store.get_node
  by_cases h : s.nodes.any (fun m => m.name == n.name) = true
  · simp only [h, if_true]
    exact find?_map_replace_of_any Node.name s.nodes n h
  · have h' : s.nodes.any (fun m => m.name == n.name) = false := by simpa using h
    simp only [h', if_false, Bool.false_eq_true]
    exact find?_append_singleton Node.name s.nodes n h'

theorem reportApply_id (r : PodStatusReport) (p : Pod) :
    (reportApply r p).id = p.id := by
  unfold reportApply
  by_cases h : p.status ≠ r.status ∧ p.status ≠ .Terminated ∧ p.status ≠ .Terminating <;>
    cases r.container_id <;> simp [h]

theorem reportApply_node_name (r : PodStatusReport) (p : Pod) :
    (reportApply r p).node_name = p.node_name := by
  unfold reportApply
  by_cases h : p.status ≠ r.status ∧ p.status ≠ .Terminated ∧ p.status ≠ .Terminating <;>
    cases r.container_id <;> simp [h]

theorem reportApply_eq (r : PodStatusReport) (p : Pod) :
    reportApply r p =
      { p with
        status := if p.status ≠ r.status ∧ p.status ≠ .Terminated ∧ p.status ≠ .Terminating
          then r.status else p.status
        container_id := match r.container_id with
          | some c => some c
          | none => p.container_id } := by
  unfold reportApply
  by_cases h : p.status ≠ r.status ∧ p.status ≠ .Terminated ∧ p.status ≠ .Terminating <;>
    cases r.container_id <;> simp [h]

theorem get_pod_applyPodReport_eq (pods : List Pod) (r : PodStatusReport) :
    (applyPodReport pods r).find? (fun p => p.id == r.pod_id)
      = (pods.find? (fun p => p.id == r.pod_id)).map (reportApply r) :=
  find?_keyed_update Pod.id pods r.pod_id (reportApply r) (reportApply_id r)

theorem get_pod_applyPodReport_ne (pods : List Pod) (r : PodStatusReport) (id : Nat)
    (hne : r.pod_id ≠ id) :
    (applyPodReport pods r).find? (fun p => p.id == id)
      = pods.find? (fun p => p.id == id) :=
  find?_keyed_update_ne Pod.id pods id r.pod_id (reportApply r) (reportApply_id r) hne

theorem foldl_reports_ne (reports : List PodStatusReport) (pods : List Pod) (id : Nat)
    (h : ∀ r ∈ reports, r.pod_id ≠ id) :
    (reports.foldl applyPodReport pods).find? (fun p => p.id == id)
      = pods.find? (fun p => p.id == id) := by
  induction reports generalizing pods with
  | nil => rfl
  | cons r rest ih =>
    rw [List.foldl_cons, ih _ (fun x hx => h x (List.mem_cons_of_mem _ hx))]
    exact get_pod_applyPodReport_ne pods r id (h r (List.mem_cons_self r rest))

theorem foldl_reports_mem (reports : List PodStatusReport) (pods : List Pod)
    (r : PodStatusReport) (hmem : r ∈ reports)
    (hnodup : (reports.map (fun x => x.pod_id)).Nodup) :
    (reports.foldl applyPodReport pods).find? (fun p => p.id == r.pod_id)
      = (pods.find? (fun p => p.id == r.pod_id)).map (reportApply r) := by
  induction reports generalizing pods with
  | nil => cases hmem
  | cons r0 rest ih =>
    rw [List.map_cons, List.nodup_cons] at hnodup
    rw [List.foldl_cons]
    rcases List.mem_cons.mp hmem with heq | hmem'
    · subst heq
      have hrest : ∀ x ∈ rest, x.pod_id ≠ r.pod_id := by
        intro x hx he
        exact hnodup.1 (he ▸ List.mem_map_of_mem _ hx)
      rw [foldl_reports_ne rest _ _ hrest]
      exact get_pod_applyPodReport_eq pods r
    · have hne : r0.pod_id ≠ r.pod_id := by
        intro he
        exact hnodup.1 (he ▸ List.mem_map_of_mem _ hmem')
      rw [ih _ hmem' hnodup.2, get_pod_applyPodReport_ne pods r0 r.pod_id hne]

theorem get_node_update_heartbeat (s : Store) (name : String) (now : Nat) :
    (s.update_node_heartbeat name now).get_node name
      = (s.get_node name).map
          (fun n => { n with last_heartbeat := now, status := .Ready }) := by
  unfold Store.update_node_heartbeat Store.get_node
  exact find?_skeyed_update Node.name s.nodes name _ (fun _ => rfl)

theorem get_node_update_resources (s : Store) (name : String) (used : Resources) :
    (s.update_node_resources name used).get_node name
      = (s.get_node name).map (fun n => { n with used := used }) := by
  unfold Store.update_node_resources Store.get_node
  exact find?_skeyed_update Node.name s.nodes name _ (fun _ => rfl)

theorem get_node_alloc (s : Store) (n : String) (r : Resources) :
    (s.allocate_resources_on_node n r).get_node n
      = (s.get_node n).map (fun node =>
          if node.can_fit r then
            { node with used := ⟨node.used.cpu_millis + r.cpu_millis,
                                 node.used.memory_mb + r.memory_mb⟩ }
          else node) := by
  unfold Store.allocate_resources_on_node Store.get_node
  exact find?_skeyed_update Node.name s.nodes n _ (by intro a; by_cases h : a.can_fit r <;> simp [h])

/-- Reserving and then releasing the same request restores a cache entry,
provided the request fitted and the entry held `u32` values. -/
theorem reserve_release_id (e : NodeCacheEntry) (r : Resources)
    (hfits : e.can_fit r = true)
    (hcpu : e.available.cpu_millis ≤ U32MAX) (hmem : e.available.memory_mb ≤ U32MAX) :
    (e.reserve r).release r = e := by
  unfold NodeCacheEntry.can_fit Resources.fits at hfits
  rw [Bool.and_eq_true, decide_eq_true_eq, decide_eq_true_eq] at hfits
  unfold NodeCacheEntry.reserve NodeCacheEntry.release satAdd
  cases e with
  | mk name endpoint available capacity =>
    cases available with
    | mk c m =>
      simp only [NodeCacheEntry.mk.injEq, Resources.mk.injEq, true_and, and_true]
      simp only at hfits hcpu hmem
      constructor
      · rw [Nat.sub_add_cancel hfits.1]
        exact Nat.min_eq_left hcpu
      · rw [Nat.sub_add_cancel hfits.2]
        exact Nat.min_eq_left hmem

/-- Releasing the reservation just made on `cache[idx]` restores the whole
cache, when cache node names are duplicate-free. -/
theorem release_node_reservation_set (cache : List NodeCacheEntry) (idx : Nat)
    (e : NodeCacheEntry) (r : Resources) (hget : cache.get? idx = some e)
    (hnodup : (cache.map NodeCacheEntry.name).Nodup)
    (hfits : e.can_fit r = true)
    (hcpu : e.available.cpu_millis ≤ U32MAX) (hmem : e.available.memory_mb ≤ U32MAX) :
    release_node_reservation (cache.set idx (e.reserve r)) e.name r = cache := by
  induction cache generalizing idx with
  | nil => simp at hget
  | cons a t ih =>
    rw [List.map_cons, List.nodup_cons] at hnodup
    cases idx with
    | zero =>
      rw [List.get?_cons_zero, Option.some.injEq] at hget
      subst hget
      rw [List.set_cons_zero]
      unfold release_node_reservation
      have hname : (a.reserve r).name = a.name := rfl
      rw [if_pos hname, reserve_release_id a r hfits hcpu hmem]
    | succ j =>
      rw [List.get?_cons_succ] at hget
      have hmem' : e ∈ t := List.get?_mem hget
      have hne : a.name ≠ e.name := by
        intro he
        exact hnodup.1 (he ▸ List.mem_map_of_mem _ hmem')
      rw [List.set_cons_succ]
      unfold release_node_reservation
      rw [if_neg (fun h => hne h), ih j hget hnodup.2]

/-- After removing the found pod by id, no pod with the deleted name remains
in the agent's local map (given that all local pods with that name share the
found pod's id). -/
theorem find?_filter_removed (aps : List AgentPod) (ap : AgentPod) (nm : String)
    (huniq : ∀ q ∈ aps, q.name = nm → q.pod_id = ap.pod_id) :
    (aps.filter (fun q => !(q.pod_id == ap.pod_id))).find? (fun q => q.name == nm)
      = none := by
  rw [List.find?_eq_none]
  intro x hx hpred
  rw [List.mem_filter] at hx
  obtain ⟨hmem, hne⟩ := hx
  simp only [Bool.not_eq_true', beq_eq_false_iff_ne, ne_eq] at hne
  exact hne (huniq x hmem (by simpa using hpred))

/-! ## Concrete system states used as test inputs -/

/-- A running pod bound to node `n1`. -/
def podB : Pod :=
  { id := 1, name := "web-0", image := "nginx", resources := ⟨500, 256⟩
    deployment_name := some "web", status := .Running, container_id := some "c1"
    node_name := some "n1", revision := 1 }

/-- The node `n1` with `podB`'s resources accounted. -/
def nodeB : Node :=
  { name := "n1", address := "h1", port := 8081, capacity := ⟨4000, 8192⟩
    allocatable := ⟨4000, 8192⟩, used := ⟨500, 256⟩, status := .Ready
    last_heartbeat := 0 }

/-- `podB` as tracked by the agent on `n1`. -/
def agentPodB : AgentPod :=
  { pod_id := 1, name := "web-0", resources := ⟨500, 256⟩
    container_id := some "c1", status := .Running }

/-- System with one bound running pod and its agent. -/
def sysB : SystemState :=
  { store := { deployments := [], pods := [podB], nodes := [nodeB] }
    agents := [("n1", [agentPodB])] }

/-- A pending pod with no node assigned. -/
def podU : Pod :=
  { id := 3, name := "b-0", image := "img", resources := ⟨0, 0⟩
    deployment_name := some "b", status := .Pending, container_id := none
    node_name := none, revision := 1 }

/-- System with one unassigned pending pod. -/
def sysU : SystemState :=
  { store := { deployments := [], pods := [podU], nodes := [] }
    agents := [] }

/-! ## Injectivity of decimal pod-name indices

`mkPodName base i = base ++ "-" ++ Nat.repr i`; to reason about the
index scan of `create_pod_for_deployment` we need that distinct indices
give distinct names, i.e. that `Nat.repr` is injective. -/

theorem toDigitsCore_eq_digits :
    ∀ (fuel n : Nat) (ds : List Char), n ≠ 0 → n < fuel →
      Nat.toDigitsCore 10 fuel n ds
        = ((Nat.digits 10 n).map Nat.digitChar).reverse ++ ds := by
  intro fuel
  induction fuel with
  | zero =>
    intro n ds _ h
    omega
  | succ fuel ih =>
    intro n ds hn h
    rw [Nat.digits_def' (by norm_num : (1 : Nat) < 10) (Nat.pos_of_ne_zero hn)]
    by_cases h0 : n / 10 = 0
    · simp only [Nat.toDigitsCore, h0, if_true, List.map_cons, List.reverse_cons]
      simp
    · have h2 : n / 10 < fuel := by
        have hd : n / 10 < n := Nat.div_lt_self (Nat.pos_of_ne_zero hn) (by norm_num)
        omega
      simp only [Nat.toDigitsCore, h0, if_false]
      rw [ih (n / 10) _ h0 h2]
      simp [List.reverse_cons, List.append_assoc]

theorem digitChar_inj10 :
    ∀ a : Nat, a < 10 → ∀ b : Nat, b < 10 → Nat.digitChar a = Nat.digitChar b → a = b := by
  decide

theorem map_digitChar_inj :
    ∀ (l1 l2 : List Nat), (∀ x ∈ l1, x < 10) → (∀ x ∈ l2, x < 10) →
      l1.map Nat.digitChar = l2.map Nat.digitChar → l1 = l2 := by
  intro l1
  induction l1 with
  | nil =>
    intro l2 _ _ h
    cases l2 with
    | nil => rfl
    | cons b t2 => simp at h
  | cons a t ih =>
    intro l2 h1 h2 h
    cases l2 with
    | nil => simp at h
    | cons b t2 =>
      simp only [List.map_cons, List.cons.injEq] at h
      have ha := digitChar_inj10 a (h1 a (List.mem_cons_self a t)) b
        (h2 b (List.mem_cons_self b t2)) h.1
      rw [ha, ih t2 (fun x hx => h1 x (List.mem_cons_of_mem a hx))
        (fun x hx => h2 x (List.mem_cons_of_mem b hx)) h.2]

theorem repr_eq_digits (n : Nat) (hn : n ≠ 0) :
    Nat.repr n = (((Nat.digits 10 n).map Nat.digitChar).reverse).asString := by
  unfold Nat.repr Nat.toDigits
  rw [toDigitsCore_eq_digits (n + 1) n [] hn (Nat.lt_succ_self n)]
  rw [List.append_nil]

theorem digits_of_map_digitChar_eq (m n : Nat)
    (h : (Nat.digits 10 m).map Nat.digitChar = (Nat.digits 10 n).map Nat.digitChar) :
    m = n := by
  have hm : ∀ x ∈ Nat.digits 10 m, x < 10 := fun x hx => Nat.digits_lt_base (by norm_num) hx
  have hn : ∀ x ∈ Nat.digits 10 n, x < 10 := fun x hx => Nat.digits_lt_base (by norm_num) hx
  have hd := map_digitChar_inj _ _ hm hn h
  have h1 := Nat.ofDigits_digits 10 m
  have h2 := Nat.ofDigits_digits 10 n
  rw [← h1, ← h2, hd]

theorem natRepr_injective : ∀ m n : Nat, Nat.repr m = Nat.repr n → m = n := by
  have hz : ∀ n : Nat, n ≠ 0 → Nat.repr 0 = Nat.repr n → False := by
    intro n hn h
    rw [repr_eq_digits n hn] at h
    have hd : ['0'] = ((Nat.digits 10 n).map Nat.digitChar).reverse :=
      congrArg String.data h
    have hrev : (Nat.digits 10 n).map Nat.digitChar = ['0'] := by
      have := congrArg List.reverse hd
      simpa using this.symm
    have : Nat.digits 10 n = [0] := by
      have h0 : ([0] : List Nat).map Nat.digitChar = ['0'] := rfl
      exact map_digitChar_inj _ _
        (fun x hx => Nat.digits_lt_base (by norm_num) hx)
        (by intro x hx; simp at hx; omega)
        (hrev.trans h0.symm)
    have hzero : n = 0 := by
      have := Nat.ofDigits_digits 10 n
      rw [this.symm, ‹Nat.digits 10 n = [0]›]
      rfl
    exact hn hzero
  intro m n h
  by_cases hm : m = 0
  · by_cases hn : n = 0
    · rw [hm, hn]
    · exact absurd (hm ▸ h) (fun hh => hz n hn hh)
  · by_cases hn : n = 0
    · exact absurd (hn ▸ h).symm (fun hh => hz m hm hh)
    · rw [repr_eq_digits m hm, repr_eq_digits n hn] at h
      have hd : ((Nat.digits 10 m).map Nat.digitChar).reverse
          = ((Nat.digits 10 n).map Nat.digitChar).reverse := congrArg String.data h
      have : (Nat.digits 10 m).map Nat.digitChar = (Nat.digits 10 n).map Nat.digitChar := by
        have := congrArg List.reverse hd
        simpa using this
      exact digits_of_map_digitChar_eq m n this

theorem mkPodName_injective (base : String) :
    ∀ i j : Nat, mkPodName base i = mkPodName base j → i = j := by
  intro i j h
  unfold mkPodName at h
  have hd := congrArg String.data h
  simp only [String.data_append] at hd
  have hij : (Nat.repr i).data = (Nat.repr j).data := List.append_cancel_left hd
  exact natRepr_injective i j (congrArg String.mk hij)

/-! ## The index scan never returns a used name -/

theorem firstFreeFrom_spec_aux (names : List String) (base : String) :
    ∀ (fuel i : Nat),
      ((Finset.Ico i (i + fuel)).filter (fun j => mkPodName base j ∈ names)).card < fuel →
      mkPodName base (firstFreeFrom names base fuel i) ∉ names := by
  intro fuel
  induction fuel with
  | zero =>
    intro i h
    exact absurd h (Nat.not_lt_zero _)
  | succ fuel ih =>
    intro i h
    unfold firstFreeFrom
    by_cases hc : names.contains (mkPodName base i) = true
    · rw [if_pos hc]
      apply ih (i + 1)
      have hmem : mkPodName base i ∈ names := by
        rw [List.contains_iff_exists_mem_beq] at hc
        obtain ⟨x, hx, hbeq⟩ := hc
        rw [beq_iff_eq] at hbeq
        exact hbeq ▸ hx
      have hlt : i < i + (fuel + 1) := by omega
      have hins : Finset.Ico i (i + (fuel + 1))
          = insert i (Finset.Ico (i + 1) (i + (fuel + 1))) :=
        (Nat.Ico_insert_succ_left hlt).symm
      rw [hins, Finset.filter_insert, if_pos hmem] at h
      have hnm : i ∉ (Finset.Ico (i + 1) (i + (fuel + 1))).filter
          (fun j => mkPodName base j ∈ names) := by
        intro hmm
        have := (Finset.mem_filter.mp hmm).1
        rw [Finset.mem_Ico] at this
        omega
      rw [Finset.card_insert_of_not_mem hnm] at h
      have he : i + 1 + fuel = i + (fuel + 1) := by omega
      rw [he]
      omega
    · rw [if_neg hc]
      intro hmm
      exact hc (List.contains_iff_exists_mem_beq.mpr ⟨_, hmm, beq_self_eq_true _⟩)

theorem firstFreeFrom_spec (names : List String) (base : String) (i : Nat) :
    mkPodName base (firstFreeFrom names base (names.length + 1) i) ∉ names := by
  apply firstFreeFrom_spec_aux names base (names.length + 1) i
  have himg : ((Finset.Ico i (i + (names.length + 1))).filter
      (fun j => mkPodName base j ∈ names)).image (fun j => mkPodName base j)
        ⊆ names.toFinset := by
    intro x hx
    rw [Finset.mem_image] at hx
    obtain ⟨j, hj, rfl⟩ := hx
    exact List.mem_toFinset.mpr (Finset.mem_filter.mp hj).2
  have hcard := Finset.card_image_of_injective
    ((Finset.Ico i (i + (names.length + 1))).filter (fun j => mkPodName base j ∈ names))
    (fun a b hab => mkPodName_injective base a b hab)
  have hle := Finset.card_le_card himg
  have hfin := List.toFinset_card_le names
  rw [hcard] at hle
  omega

/-! ## Properties of the pod-creation loop -/

theorem scaleUpLoop_succ (d : Deployment) (cur : Nat) (s : Store) (k i x : Nat)
    (ids' : List Nat) :
    scaleUpLoop d cur s (k + 1) i (x :: ids')
      = ((scaleUpLoop d cur
            (s.add_pod (create_pod_for_deployment d s.pods (cur + i) x)) k (i + 1) ids').1,
         create_pod_for_deployment d s.pods (cur + i) x ::
           (scaleUpLoop d cur
             (s.add_pod (create_pod_for_deployment d s.pods (cur + i) x)) k (i + 1)
             ids').2) := rfl

theorem scaleUpLoop_length (d : Deployment) (cur : Nat) :
    ∀ (k i : Nat) (s : Store) (ids : List Nat),
      (scaleUpLoop d cur s k i ids).2.length = k := by
  intro k
  induction k with
  | zero => intro i s ids; rfl
  | succ k ih =>
    intro i s ids
    cases ids with
    | nil =>
      show (_ :: (scaleUpLoop d cur _ k (i + 1) ([] : List Nat).tail).2).length = k + 1
      rw [List.length_cons, ih]
    | cons x t =>
      rw [scaleUpLoop_succ, List.length_cons, ih]

theorem scaleUpLoop_shape (d : Deployment) (cur : Nat) :
    ∀ (k i : Nat) (s : Store) (ids : List Nat),
      ∀ p ∈ (scaleUpLoop d cur s k i ids).2,
        p.status = .Pending ∧ p.revision = d.revision ∧
          p.deployment_name = some d.name ∧ p.node_name = none := by
  intro k
  induction k with
  | zero =>
    intro i s ids p hp
    simp [scaleUpLoop] at hp
  | succ k ih =>
    intro i s ids p hp
    cases ids with
    | nil =>
      rcases List.mem_cons.mp hp with heq | hp'
      · subst heq
        exact ⟨rfl, rfl, rfl, rfl⟩
      · exact ih (i + 1) _ _ p hp'
    | cons x t =>
      rw [scaleUpLoop_succ] at hp
      rcases List.mem_cons.mp hp with heq | hp'
      · subst heq
        exact ⟨rfl, rfl, rfl, rfl⟩
      · exact ih (i + 1) _ _ p hp'

theorem activeNamesFor_append (l1 l2 : List Pod) (dname : String) :
    activeNamesFor (l1 ++ l2) dname = activeNamesFor l1 dname ++ activeNamesFor l2 dname := by
  unfold activeNamesFor
  rw [List.filter_append, List.map_append]

theorem created_pod_active (d : Deployment) (pods : List Pod) (idx x : Nat) :
    (create_pod_for_deployment d pods idx x).isActiveFor d.name = true := by
  unfold create_pod_for_deployment Pod.from_deployment Pod.isActiveFor
  simp

theorem scaleUpLoop_spec (d : Deployment) (cur : Nat) :
    ∀ (k i : Nat) (s : Store) (ids : List Nat),
      k ≤ ids.length → ids.Nodup →
      (∀ x ∈ ids, ∀ p ∈ s.pods, p.id ≠ x) →
      (scaleUpLoop d cur s k i ids).1.pods = s.pods ++ (scaleUpLoop d cur s k i ids).2 ∧
      (∀ p ∈ (scaleUpLoop d cur s k i ids).2,
        p.name ∉ activeNamesFor s.pods d.name) ∧
      ((scaleUpLoop d cur s k i ids).2.map Pod.name).Nodup := by
  intro k
  induction k with
  | zero =>
    intro i s ids _ _ _
    exact ⟨(List.append_nil s.pods).symm, fun p hp => by simp [scaleUpLoop] at hp,
      by simp [scaleUpLoop]⟩
  | succ k ih =>
    intro i s ids hlen hnd hfresh
    cases ids with
    | nil => simp at hlen
    | cons x ids' =>
      rw [scaleUpLoop_succ]
      set pod := create_pod_for_deployment d s.pods (cur + i) x with hpoddef
      have hpodid : pod.id = x := rfl
      have hany : s.pods.any (fun q => q.id == pod.id) = false := by
        rw [List.any_eq_false]
        intro q hq
        simp only [beq_iff_eq, hpodid]
        exact hfresh x (List.mem_cons_self x ids') q hq
      have hadd : (s.add_pod pod).pods = s.pods ++ [pod] := by
        unfold Store.add_pod
        rw [hany]
        rfl
      have hnd' := (List.nodup_cons.mp hnd).2
      have hxnotin := (List.nodup_cons.mp hnd).1
      have hfresh' : ∀ y ∈ ids', ∀ p ∈ (s.add_pod pod).pods, p.id ≠ y := by
        intro y hy p hp
        rw [hadd] at hp
        rcases List.mem_append.mp hp with hp' | hp'
        · exact hfresh y (List.mem_cons_of_mem x hy) p hp'
        · have : p = pod := by simpa using hp'
          subst this
          rw [hpodid]
          intro he
          exact hxnotin (he ▸ hy)
      have ihh := ih (i + 1) (s.add_pod pod) ids' (by simpa using hlen) hnd' hfresh'
      have hmono : activeNamesFor (s.add_pod pod).pods d.name
          = activeNamesFor s.pods d.name ++ [pod.name] := by
        rw [hadd, activeNamesFor_append]
        unfold activeNamesFor
        rw [List.filter_singleton,
          show pod.isActiveFor d.name = true from created_pod_active d s.pods (cur + i) x]
        rfl
      refine ⟨?_, ?_, ?_⟩
      · show (scaleUpLoop d cur (s.add_pod pod) k (i + 1) ids').1.pods = _
        rw [ihh.1, hadd, List.append_assoc]
        rfl
      · intro p hp
        rcases List.mem_cons.mp hp with heq | hp'
        · subst heq
          show mkPodName d.name _ ∉ activeNamesFor s.pods d.name
          exact firstFreeFrom_spec (activeNamesFor s.pods d.name) d.name (cur + i)
        · intro hmem
          apply ihh.2.1 p hp'
          rw [hmono]
          exact List.mem_append_left _ hmem
      · rw [List.map_cons, List.nodup_cons]
        refine ⟨?_, ihh.2.2⟩
        intro hmem
        rw [List.mem_map] at hmem
        obtain ⟨q, hq, hqname⟩ := hmem
        apply ihh.2.1 q hq
        rw [hmono, hqname]
        exact List.mem_append_right _ (List.mem_singleton_self _)

/-! ## The system's transition relation (for the reachability invariant)

Each constructor of `Step` is one of the operations the spec lists: pod
creation by the reconciler, the scheduler's binding (its store writes, then
the agent's success or failure response), an agent heartbeat whose reports
come from that agent's local pod map, pod termination (`terminate_pod`,
including the revert-to-Running branch) and GC. -/

/-- `Controller::cleanup_terminated_pods` (`src/controller/mod.rs:413-430`):
delete every pod whose status is Terminated. -/
def cleanup_terminated_pods (s : Store) : Store :=
  { s with pods := s.pods.filter (fun p => !(p.status == .Terminated)) }

/-- The agent's local-map insert on pod creation (`src/agent.rs:266-269`,
HashMap insert keyed by pod id). -/
def agentPodsInsert (aps : List AgentPod) (ap : AgentPod) : List AgentPod :=
  if aps.any (fun q => q.pod_id == ap.pod_id) then
    aps.map (fun q => if q.pod_id = ap.pod_id then ap else q)
  else aps ++ [ap]

/-- Record a pod in the agent map of node `n`. -/
def agentAddPod (agents : List (String × List AgentPod)) (n : String) (ap : AgentPod) :
    List (String × List AgentPod) :=
  agents.map (fun e => if e.1 = n then (e.1, agentPodsInsert e.2 ap) else e)

/-- The agent on node `n` tracks a pod with id `id`. -/
def agentHasId (agents : List (String × List AgentPod)) (n : String) (id : Nat) : Prop :=
  ∃ aps, agentLookup agents n = some aps ∧ ∃ ap ∈ aps, ap.pod_id = id

/-- One transition of the orchestrator, with each store/agent effect written
with the embedded source functions. -/
inductive Step : SystemState → SystemState → Prop
  | createPod (s : SystemState) (p : Pod) :
      p.status = .Pending → p.node_name = none →
      (∀ q ∈ s.store.pods, q.id ≠ p.id) →
      (∀ e ∈ s.agents, ∀ ap ∈ e.2, ap.pod_id ≠ p.id) →
      Step s { s with store := s.store.add_pod p }
  | bindAssign (s : SystemState) (id : Nat) (n : String) (p : Pod) :
      s.store.get_pod id = some p → p.status = .Pending → p.node_name = none →
      Step s { s with store := (((s.store.assign_pod_to_node id n).allocate_resources_on_node
        n p.resources).update_pod_status id .Creating) }
  | bindOk (s : SystemState) (id : Nat) (n : String) (p : Pod) (ap : AgentPod) :
      s.store.get_pod id = some p → p.node_name = some n → ap.pod_id = id →
      Step s { store := s.store.update_pod_status id .Running
               agents := agentAddPod s.agents n ap }
  | bindFail (s : SystemState) (id : Nat) (n : String) (p : Pod) :
      s.store.get_pod id = some p → p.node_name = some n →
      Step s { s with store := ((s.store.update_pod_status id .Failed).deallocate_resources_on_node
        n p.resources) }
  | heartbeat (s : SystemState) (n : String) (req : HeartbeatRequest) (now : Nat) :
      (∀ r ∈ req.pod_statuses, agentHasId s.agents n r.pod_id) →
      Step s { s with store := (node_heartbeat s.store n req now).1 }
  | terminate (s : SystemState) (id : Nat) :
      Step s (terminate_pod s id)
  | gc (s : SystemState) :
      Step s { s with store := cleanup_terminated_pods s.store }

/-- The empty initial system. -/
def initState : SystemState :=
  { store := { deployments := [], pods := [], nodes := [] }, agents := [] }

/-- States reachable from the empty system by the operations above. -/
inductive Reachable : SystemState → Prop
  | init : Reachable initState
  | step {s s' : SystemState} : Reachable s → Step s s' → Reachable s'

/-- The claimed invariant: Running/Creating pods are bound to a node. -/
def NodeInv (s : SystemState) : Prop :=
  ∀ p ∈ s.store.pods, (p.status = .Running ∨ p.status = .Creating) → p.node_name ≠ none

/-- Auxiliary invariant: any pod tracked by some agent that still exists in
the master store has a node assigned. -/
def AgentInv (s : SystemState) : Prop :=
  ∀ e ∈ s.agents, ∀ ap ∈ e.2, ∀ p ∈ s.store.pods, p.id = ap.pod_id → p.node_name ≠ none

/-- Auxiliary invariant: master pod ids are duplicate-free. -/
def IdsInv (s : SystemState) : Prop :=
  (s.store.pods.map Pod.id).Nodup

/-- The inductive invariant. -/
def Inv (s : SystemState) : Prop := IdsInv s ∧ AgentInv s ∧ NodeInv s

/-! ## Lemmas for the reachability invariant -/

theorem map_id_keyed_update (pods : List Pod) (id : Nat) (f : Pod → Pod)
    (hf : ∀ q, (f q).id = q.id) :
    ((pods.map (fun q => if q.id = id then f q else q)).map Pod.id) = pods.map Pod.id := by
  rw [List.map_map]
  apply List.map_congr_left
  intro q _
  by_cases h : q.id = id <;> simp [h, hf, Function.comp]

theorem find?_unique (pods : List Pod) (id : Nat) (p q : Pod)
    (hnd : (pods.map Pod.id).Nodup)
    (hfind : pods.find? (fun x => x.id == id) = some p)
    (hq : q ∈ pods) (hqid : q.id = id) : q = p := by
  have hpmem : p ∈ pods := List.mem_of_find?_eq_some hfind
  have hpid : (p.id == id) = true := by
    have := List.find?_some hfind
    simpa using this
  rw [beq_iff_eq] at hpid
  exact List.inj_on_of_nodup_map hnd hq hpmem (by rw [hqid, hpid])

theorem mem_agentPodsInsert {aps : List AgentPod} {ap ap' : AgentPod}
    (h : ap' ∈ agentPodsInsert aps ap) : ap' ∈ aps ∨ ap' = ap := by
  unfold agentPodsInsert at h
  by_cases hc : aps.any (fun q => q.pod_id == ap.pod_id) = true
  · rw [if_pos hc] at h
    rw [List.mem_map] at h
    obtain ⟨q, hq, he⟩ := h
    by_cases hqe : q.pod_id = ap.pod_id
    · right
      rw [← he, if_pos hqe]
    · left
      rw [← he, if_neg hqe]
      exact hq
  · rw [if_neg hc] at h
    rcases List.mem_append.mp h with h | h
    · exact Or.inl h
    · right
      simpa using h

theorem mem_agentsUpdate {agents : List (String × List AgentPod)} {n : String}
    {aps' : List AgentPod} {e' : String × List AgentPod}
    (h : e' ∈ agentsUpdate agents n aps') : e' ∈ agents ∨ e'.2 = aps' := by
  unfold agentsUpdate at h
  rw [List.mem_map] at h
  obtain ⟨e, he, heq⟩ := h
  by_cases hc : e.1 = n
  · right
    rw [← heq, if_pos hc]
  · left
    rw [← heq, if_neg hc]
    exact he

theorem mem_agentAddPod {agents : List (String × List AgentPod)} {n : String}
    {ap : AgentPod} {e' : String × List AgentPod}
    (h : e' ∈ agentAddPod agents n ap) :
    ∃ e ∈ agents, ∀ ap' ∈ e'.2, ap' ∈ e.2 ∨ ap' = ap := by
  unfold agentAddPod at h
  rw [List.mem_map] at h
  obtain ⟨e, he, heq⟩ := h
  by_cases hc : e.1 = n
  · refine ⟨e, he, ?_⟩
    intro ap' h'
    rw [← heq, if_pos hc] at h'
    exact mem_agentPodsInsert h'
  · refine ⟨e, he, ?_⟩
    intro ap' h'
    rw [← heq, if_neg hc] at h'
    exact Or.inl h'

theorem agentLookup_mem {agents : List (String × List AgentPod)} {n : String}
    {aps : List AgentPod} (h : agentLookup agents n = some aps) :
    ∃ e ∈ agents, e.2 = aps := by
  unfold agentLookup at h
  cases hf : agents.find? (fun e => e.1 == n) with
  | none =>
    rw [hf] at h
    simp at h
  | some e =>
    rw [hf] at h
    simp only [Option.map_some', Option.some.injEq] at h
    exact ⟨e, List.mem_of_find?_eq_some hf, h⟩

/-- Every agent pod surviving a master→agent delete call was already tracked
by some agent before the call. -/
theorem mem_callAgentDelete {agents : List (String × List AgentPod)} {n nm : String}
    {e' : String × List AgentPod} {ap' : AgentPod}
    (he' : e' ∈ (callAgentDeletePod agents n nm).2) (hap' : ap' ∈ e'.2) :
    ∃ e ∈ agents, ap' ∈ e.2 := by
  unfold callAgentDeletePod at he'
  cases hl : agentLookup agents n with
  | none =>
    rw [hl] at he'
    exact ⟨e', he', hap'⟩
  | some aps =>
    rw [hl] at he'
    simp only at he'
    rcases mem_agentsUpdate he' with h | h
    · exact ⟨e', h, hap'⟩
    · have hsub : ∀ x ∈ (agentDeletePodHandler aps nm).2, x ∈ aps := by
        unfold agentDeletePodHandler
        cases hf : aps.find? (fun p => p.name == nm) with
        | none => intro x hx; exact hx
        | some a =>
          intro x hx
          exact (List.mem_filter.mp hx).1
      obtain ⟨e0, he0, he02⟩ := agentLookup_mem hl
      rw [h] at hap'
      exact ⟨e0, he0, he02 ▸ hsub ap' hap'⟩

theorem map_id_foldl_reports (reports : List PodStatusReport) :
    ∀ pods : List Pod,
      ((reports.foldl applyPodReport pods).map Pod.id) = pods.map Pod.id := by
  induction reports with
  | nil => intro pods; rfl
  | cons r rest ih =>
    intro pods
    rw [List.foldl_cons, ih]
    exact map_id_keyed_update pods r.pod_id (reportApply r) (reportApply_id r)

/-- Every pod after the heartbeat report loop descends from a pod of the
original store with the same id and node assignment; its status either kept
the original value or some report mentioned the pod. -/
theorem mem_foldl_reports {reports : List PodStatusReport} :
    ∀ {pods : List Pod} {p' : Pod}, p' ∈ reports.foldl applyPodReport pods →
      ∃ p ∈ pods, p'.id = p.id ∧ p'.node_name = p.node_name ∧
        (p'.status = p.status ∨ ∃ r ∈ reports, r.pod_id = p.id) := by
  induction reports with
  | nil =>
    intro pods p' h
    exact ⟨p', h, rfl, rfl, Or.inl rfl⟩
  | cons r rest ih =>
    intro pods p' h
    rw [List.foldl_cons] at h
    obtain ⟨q, hq, hid, hnd, hstat⟩ := ih h
    unfold applyPodReport at hq
    rw [List.mem_map] at hq
    obtain ⟨p, hp, heq⟩ := hq
    by_cases hc : p.id = r.pod_id
    · have hq2 : q = reportApply r p := by rw [← heq, if_pos hc]
      refine ⟨p, hp, ?_, ?_, Or.inr ⟨r, List.mem_cons_self r rest, hc.symm⟩⟩
      · rw [hid, hq2, reportApply_id]
      · rw [hnd, hq2, reportApply_node_name]
    · have hq2 : q = p := by rw [← heq, if_neg hc]
      rw [hq2] at hid hnd hstat
      refine ⟨p, hp, hid, hnd, ?_⟩
      rcases hstat with h1 | ⟨r', hr', he'⟩
      · exact Or.inl h1
      · exact Or.inr ⟨r', List.mem_cons_of_mem r hr', he'⟩

theorem node_heartbeat_pods_cases (s : Store) (n : String) (req : HeartbeatRequest)
    (now : Nat) :
    (node_heartbeat s n req now).1.pods = s.pods ∨
      (node_heartbeat s n req now).1.pods = req.pod_statuses.foldl applyPodReport s.pods := by
  unfold node_heartbeat
  by_cases h : (s.get_node n).isNone = true
  · left
    rw [if_pos h]
  · right
    rw [if_neg h]
    rfl

/-- A one-entry scheduler cache for node `n1` (availability 3500/3596). -/
def cacheW : List NodeCacheEntry :=
  [{ name := "n1", endpoint := "e1", available := ⟨3500, 3596⟩, capacity := ⟨4000, 4096⟩ }]

/-- The node `n1` backing `cacheW` in the store. -/
def nodeW : Node :=
  { name := "n1", address := "h1", port := 8081, capacity := ⟨4000, 4096⟩
    allocatable := ⟨4000, 4096⟩, used := ⟨500, 500⟩, status := .Ready
    last_heartbeat := 0 }

/-- A pending unassigned pod requesting 500m CPU / 512 MB. -/
def podW : Pod :=
  { id := 9, name := "web-0", image := "nginx", resources := ⟨500, 512⟩
    deployment_name := some "web", status := .Pending, container_id := none
    node_name := none, revision := 1 }

/-- Store with `podW` pending and node `nodeW`. -/
def storeW : Store := { deployments := [], pods := [podW], nodes := [nodeW] }

/-- A node with some resource usage accounted, for heartbeat/register tests. -/
def nodeH : Node :=
  { name := "n1", address := "h1", port := 8081, capacity := ⟨4000, 8192⟩
    allocatable := ⟨4000, 8192⟩, used := ⟨700, 700⟩, status := .Ready
    last_heartbeat := 0 }

/-- A terminating pod on `n1` with no container id recorded. -/
def podT : Pod :=
  { id := 1, name := "web-0", image := "nginx", resources := ⟨500, 256⟩
    deployment_name := some "web", status := .Terminating, container_id := none
    node_name := some "n1", revision := 1 }

/-- A creating pod on `n1`. -/
def podC : Pod :=
  { id := 2, name := "web-1", image := "nginx", resources := ⟨500, 256⟩
    deployment_name := some "web", status := .Creating, container_id := none
    node_name := some "n1", revision := 1 }

/-- Store with `nodeH` and pods `podT`, `podC`. -/
def storeH : Store := { deployments := [], pods := [podT, podC], nodes := [nodeH] }

/-- A heartbeat reporting pod 1 Running with a container id and pod 2 Running. -/
def reqH : HeartbeatRequest :=
  { used := ⟨1000, 512⟩
    pod_statuses := [⟨1, .Running, some "c9"⟩, ⟨2, .Running, none⟩] }

/-! ## Claim-side definitions (used only to compare against the code) -/

/-- All indices `i ≥ start` (within fuel) whose name is not in `names`. -/
def claimFreeIndicesAux (names : List String) (base : String) : Nat → Nat → List Nat
  | 0, _ => []
  | fuel + 1, i =>
      if names.contains (mkPodName base i) then claimFreeIndicesAux names base fuel (i + 1)
      else i :: claimFreeIndicesAux names base fuel (i + 1)

/-- The index rule as the claim states it: the first `k` integers `i` (from 0)
for which `"<base>-<i>"` is not an active pod name. -/
def claimFreeIndices (names : List String) (base : String) (k : Nat) : List Nat :=
  (claimFreeIndicesAux names base (k + names.length) 0).take k

/-- The surge formula as the claim states it: `total_pods` is the count of
active pods of the deployment at all revisions. -/
def claim_to_create (d : Deployment) (s : Store) : Int :=
  max 0 (min ((d.replicas : Int) - s.count_active_pods_for_revision d.name d.revision)
             (((d.replicas : Int) + d.rolling_update.max_surge)
               - s.count_active_pods_for_deployment d.name))

/-! ## More concrete test states -/

/-- Deployment `web`, 2 replicas, revision 1, default rolling update. -/
def dN : Deployment :=
  { name := "web", image := "nginx", replicas := 2, resources := ⟨100, 128⟩
    rolling_update := {}, revision := 1 }

/-- A running pod of `web` whose index (3) is far above the pod count. -/
def podHigh : Pod :=
  { id := 21, name := "web-3", image := "nginx", resources := ⟨100, 128⟩
    deployment_name := some "web", status := .Running, container_id := none
    node_name := none, revision := 1 }

/-- Store with only `podHigh`. -/
def storeN : Store := { deployments := [], pods := [podHigh], nodes := [] }

/-- Deployment `web` at revision 2 with surge 0 / unavailable 0. -/
def dR : Deployment :=
  { name := "web", image := "nginx:2", replicas := 2, resources := ⟨100, 128⟩
    rolling_update := { max_surge := 0, max_unavailable := 0 }, revision := 2 }

/-- A revision-1 running pod of `web`. -/
def podOldRun : Pod :=
  { id := 11, name := "web-0", image := "nginx:1", resources := ⟨100, 128⟩
    deployment_name := some "web", status := .Running, container_id := none
    node_name := some "n1", revision := 1 }

/-- A revision-1 terminating pod of `web`. -/
def podOldTerm : Pod :=
  { id := 12, name := "web-1", image := "nginx:1", resources := ⟨100, 128⟩
    deployment_name := some "web", status := .Terminating, container_id := none
    node_name := some "n1", revision := 1 }

/-- Store with one running and one terminating revision-1 pod. -/
def storeR : Store := { deployments := [], pods := [podOldRun, podOldTerm], nodes := [] }

/-! ## Preservation of the invariant -/

theorem bindAssign_pods (s : Store) (id : Nat) (n : String) (r : Resources) :
    (((s.assign_pod_to_node id n).allocate_resources_on_node n r).update_pod_status
      id .Creating).pods
    = s.pods.map (fun q => if q.id = id
        then { q with node_name := some n, status := .Creating } else q) := by
  show (s.pods.map _).map _ = _
  rw [List.map_map]
  apply List.map_congr_left
  intro q _
  by_cases h : q.id = id <;> simp [h, Function.comp]

theorem inv_status_update (s : SystemState) (id : Nat) (st : PodStatus)
    (store' : Store) (agents' : List (String × List AgentPod))
    (hpods : store'.pods = s.store.pods.map
      (fun q => if q.id = id then { q with status := st } else q))
    (hinv : Inv s)
    (hstok : (st = .Running ∨ st = .Creating) →
      ∀ q ∈ s.store.pods, q.id = id → q.node_name ≠ none)
    (hag : ∀ e ∈ agents', ∀ ap ∈ e.2, ∃ e0 ∈ s.agents, ap ∈ e0.2) :
    Inv { store := store', agents := agents' } := by
  obtain ⟨hids, hagent, hnode⟩ := hinv
  refine ⟨?_, ?_, ?_⟩
  · show ((store'.pods).map Pod.id).Nodup
    rw [hpods, map_id_keyed_update s.store.pods id
      (fun q => { q with status := st }) (fun _ => rfl)]
    exact hids
  · intro e he ap hap p' hp' hpid
    have hp2 : p' ∈ s.store.pods.map
        (fun q => if q.id = id then { q with status := st } else q) := by
      rw [← hpods]
      exact hp'
    rw [List.mem_map] at hp2
    obtain ⟨q, hq, heq⟩ := hp2
    have hnodeq : p'.node_name = q.node_name := by
      rw [← heq]
      by_cases hc : q.id = id <;> simp [hc]
    have hidq : p'.id = q.id := by
      rw [← heq]
      by_cases hc : q.id = id <;> simp [hc]
    obtain ⟨e0, he0, hsub⟩ := hag e he ap hap
    rw [hnodeq]
    exact hagent e0 he0 ap hsub q hq (hidq ▸ hpid)
  · intro p' hp' hrc
    have hp2 : p' ∈ s.store.pods.map
        (fun q => if q.id = id then { q with status := st } else q) := by
      rw [← hpods]
      exact hp'
    rw [List.mem_map] at hp2
    obtain ⟨q, hq, heq⟩ := hp2
    by_cases hc : q.id = id
    · rw [← heq, if_pos hc] at hrc ⊢
      show q.node_name ≠ none
      have hst2 : st = .Running ∨ st = .Creating := by simpa using hrc
      exact hstok hst2 q hq hc
    · rw [← heq, if_neg hc] at hrc ⊢
      exact hnode q hq hrc

theorem inv_step {s s' : SystemState} (hinv : Inv s) (hstep : Step s s') : Inv s' := by
  obtain ⟨hids, hagent, hnode⟩ := hinv
  cases hstep with
  | createPod p hst hnn hfresh hafresh =>
    have hadd : (s.store.add_pod p).pods = s.store.pods ++ [p] := by
      unfold Store.add_pod
      have hany : s.store.pods.any (fun q => q.id == p.id) = false := by
        rw [List.any_eq_false]
        intro q hq
        simp only [beq_iff_eq]
        exact hfresh q hq
      rw [hany]
      rfl
    refine ⟨?_, ?_, ?_⟩
    · show ((s.store.add_pod p).pods.map Pod.id).Nodup
      rw [hadd, List.map_append, List.nodup_append]
      refine ⟨hids, List.nodup_singleton _, ?_⟩
      intro a ha hb
      simp only [List.map_cons, List.map_nil, List.mem_singleton] at hb
      rw [List.mem_map] at ha
      obtain ⟨q, hq, hqa⟩ := ha
      exact hfresh q hq (by rw [hqa, hb])
    · intro e he ap hap p' hp' hpid
      have hp2 : p' ∈ s.store.pods ++ [p] := by
        rw [← hadd]
        exact hp'
      rcases List.mem_append.mp hp2 with h | h
      · exact hagent e he ap hap p' h hpid
      · have hpp : p' = p := by simpa using h
        rw [hpp] at hpid
        exact absurd hpid.symm (hafresh e he ap hap)
    · intro p' hp' hrc
      have hp2 : p' ∈ s.store.pods ++ [p] := by
        rw [← hadd]
        exact hp'
      rcases List.mem_append.mp hp2 with h | h
      · exact hnode p' h hrc
      · have hpp : p' = p := by simpa using h
        rw [hpp, hst] at hrc
        rcases hrc with h1 | h1 <;> exact absurd h1 (by decide)
  | bindAssign id n p hfind hst hnn =>
    refine ⟨?_, ?_, ?_⟩
    · show ((((s.store.assign_pod_to_node id n).allocate_resources_on_node n
        p.resources).update_pod_status id .Creating).pods.map Pod.id).Nodup
      rw [bindAssign_pods, map_id_keyed_update s.store.pods id
        (fun q => { q with node_name := some n, status := .Creating }) (fun _ => rfl)]
      exact hids
    · intro e he ap hap p' hp' hpid
      have hp2 : p' ∈ s.store.pods.map (fun q => if q.id = id
          then { q with node_name := some n, status := .Creating } else q) := by
        rw [← bindAssign_pods]
        exact hp'
      rw [List.mem_map] at hp2
      obtain ⟨q, hq, heq⟩ := hp2
      by_cases hc : q.id = id
      · rw [← heq, if_pos hc]
        simp
      · rw [← heq, if_neg hc]
        rw [← heq, if_neg hc] at hpid
        exact hagent e he ap hap q hq hpid
    · intro p' hp' hrc
      have hp2 : p' ∈ s.store.pods.map (fun q => if q.id = id
          then { q with node_name := some n, status := .Creating } else q) := by
        rw [← bindAssign_pods]
        exact hp'
      rw [List.mem_map] at hp2
      obtain ⟨q, hq, heq⟩ := hp2
      by_cases hc : q.id = id
      · rw [← heq, if_pos hc]
        simp
      · rw [← heq, if_neg hc]
        rw [← heq, if_neg hc] at hrc
        exact hnode q hq hrc
  | bindOk id n p ap hfind hn hapid =>
    refine ⟨?_, ?_, ?_⟩
    · show ((s.store.pods.map
        (fun q => if q.id = id then { q with status := .Running } else q)).map Pod.id).Nodup
      rw [map_id_keyed_update s.store.pods id
        (fun q => { q with status := .Running }) (fun _ => rfl)]
      exact hids
    · intro e he ap' hap' p' hp' hpid
      have hp2 : p' ∈ s.store.pods.map
          (fun q => if q.id = id then { q with status := .Running } else q) := hp'
      rw [List.mem_map] at hp2
      obtain ⟨q, hq, heq⟩ := hp2
      have hnodeq : p'.node_name = q.node_name := by
        rw [← heq]
        by_cases hc : q.id = id <;> simp [hc]
      have hidq : p'.id = q.id := by
        rw [← heq]
        by_cases hc : q.id = id <;> simp [hc]
      rw [hnodeq]
      obtain ⟨e0, he0, hsub⟩ := mem_agentAddPod he
      rcases hsub ap' hap' with hin | hap2
      · exact hagent e0 he0 ap' hin q hq (hidq ▸ hpid)
      · rw [hap2] at hpid
        have hqid : q.id = id := by rw [← hidq, hpid, hapid]
        have hqp : q = p := find?_unique s.store.pods id p q hids hfind hq hqid
        rw [hqp, hn]
        simp
    · intro p' hp' hrc
      have hp2 : p' ∈ s.store.pods.map
          (fun q => if q.id = id then { q with status := .Running } else q) := hp'
      rw [List.mem_map] at hp2
      obtain ⟨q, hq, heq⟩ := hp2
      by_cases hc : q.id = id
      · have hqp : q = p := find?_unique s.store.pods id p q hids hfind hq hc
        rw [← heq, if_pos hc]
        show q.node_name ≠ none
        rw [hqp, hn]
        simp
      · rw [← heq, if_neg hc]
        rw [← heq, if_neg hc] at hrc
        exact hnode q hq hrc
  | bindFail id n p hfind hn =>
    exact inv_status_update s id .Failed _ s.agents rfl ⟨hids, hagent, hnode⟩
      (fun hcon => absurd hcon (by decide))
      (fun e he ap hap => ⟨e, he, hap⟩)
  | heartbeat n req now hrep =>
    rcases node_heartbeat_pods_cases s.store n req now with hcase | hcase
    · refine ⟨?_, ?_, ?_⟩
      · show (((node_heartbeat s.store n req now).1).pods.map Pod.id).Nodup
        rw [hcase]
        exact hids
      · intro e he ap hap p' hp' hpid
        have hp2 : p' ∈ s.store.pods := by
          rw [← hcase]
          exact hp'
        exact hagent e he ap hap p' hp2 hpid
      · intro p' hp' hrc
        have hp2 : p' ∈ s.store.pods := by
          rw [← hcase]
          exact hp'
        exact hnode p' hp2 hrc
    · refine ⟨?_, ?_, ?_⟩
      · show (((node_heartbeat s.store n req now).1).pods.map Pod.id).Nodup
        rw [hcase, map_id_foldl_reports]
        exact hids
      · intro e he ap hap p' hp' hpid
        have hp2 : p' ∈ req.pod_statuses.foldl applyPodReport s.store.pods := by
          rw [← hcase]
          exact hp'
        obtain ⟨q, hq, hid2, hnd2, _⟩ := mem_foldl_reports hp2
        rw [hnd2]
        exact hagent e he ap hap q hq (hid2 ▸ hpid)
      · intro p' hp' hrc
        have hp2 : p' ∈ req.pod_statuses.foldl applyPodReport s.store.pods := by
          rw [← hcase]
          exact hp'
        obtain ⟨q, hq, hid2, hnd2, hstat⟩ := mem_foldl_reports hp2
        rw [hnd2]
        rcases hstat with hsame | ⟨r, hr, hrid⟩
        · exact hnode q hq (hsame ▸ hrc)
        · obtain ⟨aps, hl, ap, hapin, hapid⟩ := hrep r hr
          obtain ⟨e0, he0, he02⟩ := agentLookup_mem hl
          exact hagent e0 he0 ap (he02 ▸ hapin) q hq (hapid.trans hrid).symm
  | terminate id =>
    cases hp : s.store.get_pod id with
    | none =>
      rw [terminate_pod_absent s id hp]
      exact ⟨hids, hagent, hnode⟩
    | some p =>
      cases hn : p.node_name with
      | none =>
        rw [terminate_pod_no_node s id p hp hn]
        exact inv_status_update s id .Terminated _ s.agents rfl ⟨hids, hagent, hnode⟩
          (fun hcon => absurd hcon (by decide))
          (fun e he ap hap => ⟨e, he, hap⟩)
      | some n =>
        cases hnode2 : s.store.get_node n with
        | none =>
          rw [terminate_pod_node_unknown s id p n hp hn hnode2]
          refine inv_status_update s id .Running _ s.agents rfl ⟨hids, hagent, hnode⟩
            ?_ (fun e he ap hap => ⟨e, he, hap⟩)
          intro _ q hq hqid
          have hqp : q = p := find?_unique s.store.pods id p q hids hp hq hqid
          rw [hqp, hn]
          simp
        | some node =>
          cases hcall : (callAgentDeletePod s.agents n p.name).1 with
          | true =>
            rw [terminate_pod_agent_ok s id p n node hp hn hnode2 hcall]
            refine inv_status_update s id .Terminated _ _ rfl ⟨hids, hagent, hnode⟩
              (fun hcon => absurd hcon (by decide)) ?_
            intro e he ap hap
            exact mem_callAgentDelete he hap
          | false =>
            rw [terminate_pod_agent_fail s id p n node hp hn hnode2 hcall]
            refine inv_status_update s id .Running _ _ rfl ⟨hids, hagent, hnode⟩
              ?_ ?_
            · intro _ q hq hqid
              have hqp : q = p := find?_unique s.store.pods id p q hids hp hq hqid
              rw [hqp, hn]
              simp
            · intro e he ap hap
              exact mem_callAgentDelete he hap
  | gc =>
    refine ⟨?_, ?_, ?_⟩
    · show ((cleanup_terminated_pods s.store).pods.map Pod.id).Nodup
      exact List.Nodup.sublist (List.Sublist.map Pod.id (List.filter_sublist _)) hids
    · intro e he ap hap p' hp' hpid
      have hp2 : p' ∈ s.store.pods.filter (fun q => !(q.status == .Terminated)) := hp'
      exact hagent e he ap hap p' (List.mem_of_mem_filter hp2) hpid
    · intro p' hp' hrc
      have hp2 : p' ∈ s.store.pods.filter (fun q => !(q.status == .Terminated)) := hp'
      exact hnode p' (List.mem_of_mem_filter hp2) hrc

theorem inv_init : Inv initState := by
  refine ⟨List.nodup_nil, ?_, ?_⟩
  · intro e he
    exact absurd he (List.not_mem_nil e)
  · intro p hp
    exact absurd hp (List.not_mem_nil p)

theorem inv_reachable {s : SystemState} (h : Reachable s) : Inv s := by
  induction h with
  | init => exact inv_init
  | step _ hs ih => exact inv_step ih hs

end Kago

open Kago

/-- C1: the PUT /deployments handler never touches `revision`: for every stored
deployment and every update request (in particular one that changes `image`),
the resulting deployment has exactly the same revision.  This contradicts the
claim that an image change increments the revision by one. -/
theorem update_deployment_never_changes_revision :
    ∀ (d : Deployment) (req : UpdateDeploymentRequest),
      (update_deployment d req).revision = d.revision := by
  intro d req
  unfold update_deployment
  cases req.replicas <;> cases req.image <;> rfl

/-- C2 counterexample: in `sysB` (one running pod bound to node `n1`, agent
tracking it), the first `terminate_pod` call ends with the pod `Terminated`
but a second call reverts it to `Running` (the agent answers 404, which the
controller treats as failure), so two calls do not yield the terminal state
of one call. -/
theorem terminate_pod_twice_cex :
    ((terminate_pod sysB 1).podOf 1).map Pod.status = some .Terminated ∧
    ((terminate_pod (terminate_pod sysB 1) 1).podOf 1).map Pod.status = some .Running ∧
    terminate_pod (terminate_pod sysB 1) 1 ≠ terminate_pod sysB 1 := by
  refine ⟨by decide, by decide, by decide⟩

/-- C2 (amended): `terminate_pod` is idempotent for a pod with no node
assigned; for a pod bound to a known node whose agent deletion succeeds on
the first call, a second call (before GC) reverts the pod's status from
`Terminated` to `Running` — because the agent now answers 404 and any
non-2xx is treated as failure — but it does not deallocate the node's
resources a second time. -/
theorem terminate_pod_twice_amended :
    (∀ (s : SystemState) (id : Nat) (p : Pod),
        s.store.get_pod id = some p → p.node_name = none →
        terminate_pod (terminate_pod s id) id = terminate_pod s id) ∧
    (∀ (s : SystemState) (id : Nat) (p : Pod) (n : String) (node : Node)
        (aps : List AgentPod) (ap : AgentPod),
        s.store.get_pod id = some p →
        p.node_name = some n →
        s.store.get_node n = some node →
        agentLookup s.agents n = some aps →
        aps.find? (fun q => q.name == p.name) = some ap →
        (∀ q ∈ aps, q.name = p.name → q.pod_id = ap.pod_id) →
        ((terminate_pod s id).podOf id).map Pod.status = some .Terminated ∧
        ((terminate_pod (terminate_pod s id) id).podOf id).map Pod.status = some .Running ∧
        (terminate_pod (terminate_pod s id) id).usedOn n = (terminate_pod s id).usedOn n) := by
  constructor
  · intro s id p hp hn
    have h1 := terminate_pod_no_node s id p hp hn
    have hp1 : (terminate_pod s id).store.get_pod id
        = some { p with status := .Terminated } := by
      rw [h1]
      show (s.store.update_pod_status id .Terminated).get_pod id = _
      rw [get_pod_update_pod_status, hp]
      rfl
    have h2 := terminate_pod_no_node (terminate_pod s id) id
      { p with status := .Terminated } hp1 hn
    rw [h2, h1]
    simp only [update_pod_status_update_pod_status]
  · intro s id p n node aps ap hp hn hnode hlook hfind huniq
    have hcall1 : callAgentDeletePod s.agents n p.name
        = (true, agentsUpdate s.agents n
            (aps.filter (fun q => !(q.pod_id == ap.pod_id)))) := by
      unfold callAgentDeletePod agentDeletePodHandler
      simp only [hlook, hfind]
    have h1 := terminate_pod_agent_ok s id p n node hp hn hnode (by rw [hcall1])
    have hp1 : (terminate_pod s id).store.get_pod id
        = some { p with status := .Terminated } := by
      simp only [h1, get_pod_update_pod_status, get_pod_dealloc, hp]
      rfl
    have hstat1 : ((terminate_pod s id).podOf id).map Pod.status = some .Terminated := by
      unfold SystemState.podOf
      rw [hp1]
      rfl
    have hnode1 : (terminate_pod s id).store.get_node n
        = some { node with used := ⟨node.used.cpu_millis - p.resources.cpu_millis,
                                    node.used.memory_mb - p.resources.memory_mb⟩ } := by
      simp only [h1, get_node_update_pod_status, get_node_dealloc, hnode]
      rfl
    have hlook1 : agentLookup (terminate_pod s id).agents n
        = some (aps.filter (fun q => !(q.pod_id == ap.pod_id))) := by
      simp only [h1, hcall1]
      exact agentLookup_agentsUpdate s.agents n _ (by rw [hlook]; rfl)
    have hcall2 : (callAgentDeletePod (terminate_pod s id).agents n p.name).1 = false := by
      unfold callAgentDeletePod agentDeletePodHandler
      simp only [hlook1, find?_filter_removed aps ap p.name huniq]
    have h2 := terminate_pod_agent_fail (terminate_pod s id) id
      { p with status := .Terminated } n _ hp1 hn hnode1 hcall2
    refine ⟨hstat1, ?_, ?_⟩
    · unfold SystemState.podOf
      simp only [h2, get_pod_update_pod_status, hp1]
      rfl
    · unfold SystemState.usedOn
      simp only [h2, get_node_update_pod_status]

/-- C2 witness: the amended statement applied to the concrete systems `sysU`
(pod 3, no node) and `sysB` (pod 1 bound to `n1`). -/
theorem terminate_pod_twice_amended_witness :
    (terminate_pod (terminate_pod sysU 3) 3 = terminate_pod sysU 3) ∧
    ((terminate_pod (terminate_pod sysB 1) 1).podOf 1).map Pod.status = some .Running := by
  constructor
  · exact terminate_pod_twice_amended.1 sysU 3 podU (by decide) (by decide)
  · exact (terminate_pod_twice_amended.2 sysB 1 podB "n1" nodeB [agentPodB] agentPodB
      (by decide) (by decide) (by decide) (by decide) (by decide) (by decide)).2.1

/-- C7 counterexample: in `sysU`, the user-facing DELETE /pods handler leaves
pod 3 in status `Terminated` (it synchronously ran the controller's
`terminate_pod`), not in `Terminating` as the claim states. -/
theorem api_delete_pod_cex :
    ((api_delete_pod sysU 3).1.podOf 3).map Pod.status = some .Terminated ∧
    PodStatus.Terminated ≠ PodStatus.Terminating := by
  refine ⟨by decide, by decide⟩

/-- C7 (amended): the DELETE /pods/{uuid} handler does not merely mark the pod
`Terminating` and defer to the reconciler: for an existing pod it invokes the
controller's `terminate_pod` synchronously (agent call, deallocation and the
final transition included), and when the handler returns the pod's status is
`Terminated` (success, or no node assigned) or `Running` (reverted on
failure) — never `Terminating`. -/
theorem api_delete_pod_amended :
    ∀ (s : SystemState) (id : Nat) (p : Pod), s.store.get_pod id = some p →
      (api_delete_pod s id).1 = terminate_pod s id ∧
      (api_delete_pod s id).2 = true ∧
      (((api_delete_pod s id).1.podOf id).map Pod.status = some .Terminated ∨
        ((api_delete_pod s id).1.podOf id).map Pod.status = some .Running) := by
  intro s id p hp
  have he : api_delete_pod s id = (terminate_pod s id, true) := by
    unfold api_delete_pod
    rw [hp]
  refine ⟨by rw [he], by rw [he], ?_⟩
  rw [he]
  exact terminate_pod_final_status s id p hp

/-- C7 witness: the amended statement applied to `sysB` and pod 1. -/
theorem api_delete_pod_amended_witness :
    (api_delete_pod sysB 1).1 = terminate_pod sysB 1 ∧
    (api_delete_pod sysB 1).2 = true ∧
    (((api_delete_pod sysB 1).1.podOf 1).map Pod.status = some .Terminated ∨
      ((api_delete_pod sysB 1).1.podOf 1).map Pod.status = some .Running) :=
  api_delete_pod_amended sysB 1 podB (by decide)

/-- C9 counterexample: in `storeH` the heartbeat reports pod 1 (currently
`Terminating`) as Running with container `c9`.  The handler leaves the status
at `Terminating` but still copies the container id — contradicting the claim
that status and container_id are copied only when the pod is not
Terminated/Terminating. -/
theorem node_heartbeat_cex :
    ((node_heartbeat storeH "n1" reqH 5).1.get_pod 1).map Pod.container_id
      = some (some "c9") ∧
    ((node_heartbeat storeH "n1" reqH 5).1.get_pod 1).map Pod.status
      = some .Terminating := by
  exact ⟨by decide, by decide⟩

/-- C9 (amended): for a heartbeat on an existing node the handler updates
`used`, `last_heartbeat` (and sets the node Ready); for each reported pod
that exists in the master store the *status* is copied only when it differs
and the pod is not Terminated/Terminating, while the *container_id* is
overwritten whenever the report carries one, regardless of the pod's status;
pods not mentioned in the report are untouched. -/
theorem node_heartbeat_amended :
    ∀ (s : Store) (name : String) (req : HeartbeatRequest) (now : Nat) (node : Node),
      s.get_node name = some node →
      (req.pod_statuses.map (fun x => x.pod_id)).Nodup →
      (node_heartbeat s name req now).2 = true ∧
      (node_heartbeat s name req now).1.get_node name
        = some { node with used := req.used, status := .Ready, last_heartbeat := now } ∧
      (∀ r ∈ req.pod_statuses, ∀ p : Pod, s.get_pod r.pod_id = some p →
        (node_heartbeat s name req now).1.get_pod r.pod_id
          = some { p with
              status := if p.status ≠ r.status ∧ p.status ≠ .Terminated ∧
                  p.status ≠ .Terminating then r.status else p.status
              container_id := match r.container_id with
                | some c => some c
                | none => p.container_id }) ∧
      (∀ id : Nat, (∀ r ∈ req.pod_statuses, r.pod_id ≠ id) →
        (node_heartbeat s name req now).1.get_pod id = s.get_pod id) := by
  intro s name req now node hnode hnodup
  have hsel : node_heartbeat s name req now
      = ({ (s.update_node_heartbeat name now).update_node_resources name req.used with
            pods := req.pod_statuses.foldl applyPodReport
              ((s.update_node_heartbeat name now).update_node_resources name req.used).pods },
          true) := by
    unfold node_heartbeat
    rw [hnode]
    rfl
  refine ⟨by rw [hsel], ?_, ?_, ?_⟩
  · rw [hsel]
    show ((s.update_node_heartbeat name now).update_node_resources name req.used).get_node
      name = _
    rw [get_node_update_resources, get_node_update_heartbeat, hnode]
    rfl
  · intro r hr p hp
    rw [hsel]
    show (req.pod_statuses.foldl applyPodReport
      ((s.update_node_heartbeat name now).update_node_resources name req.used).pods).find?
        (fun q => q.id == r.pod_id) = _
    have hpods : ((s.update_node_heartbeat name now).update_node_resources name
        req.used).pods = s.pods := rfl
    rw [hpods, foldl_reports_mem req.pod_statuses s.pods r hr hnodup]
    show (s.get_pod r.pod_id).map (reportApply r) = _
    rw [hp]
    show some (reportApply r p) = _
    rw [reportApply_eq]
  · intro id hid
    rw [hsel]
    show (req.pod_statuses.foldl applyPodReport
      ((s.update_node_heartbeat name now).update_node_resources name req.used).pods).find?
        (fun q => q.id == id) = _
    have hpods : ((s.update_node_heartbeat name now).update_node_resources name
        req.used).pods = s.pods := rfl
    rw [hpods, foldl_reports_ne req.pod_statuses s.pods id hid]
    rfl

/-- C9 witness: the amended statement applied to `storeH` with heartbeat
`reqH` at time 5: pod 2 (`Creating`, reported Running with no container id)
becomes Running and keeps `container_id = none`, and the node record is
updated. -/
theorem node_heartbeat_amended_witness :
    (node_heartbeat storeH "n1" reqH 5).2 = true ∧
    (node_heartbeat storeH "n1" reqH 5).1.get_node "n1"
      = some { nodeH with used := ⟨1000, 512⟩, status := .Ready, last_heartbeat := 5 } ∧
    (node_heartbeat storeH "n1" reqH 5).1.get_pod 2
      = some { podC with status := .Running } := by
  have h := node_heartbeat_amended storeH "n1" reqH 5 nodeH (by decide) (by decide)
  refine ⟨h.1, h.2.1, ?_⟩
  have h2 := h.2.2.1 ⟨2, .Running, none⟩ (by decide) podC (by decide)
  rw [h2]
  decide

/-- C10: re-registering a node replaces its stored record wholesale: after
POST /nodes/register with a non-empty name the stored node has
`used = {0, 0}`, status `Ready`, `last_heartbeat` equal to the registration
time, and `capacity = allocatable =` the newly reported capacity — any
previously accounted usage is discarded. -/
theorem register_node_overwrites :
    ∀ (s : Store) (req : RegisterNodeRequest) (now : Nat), req.name ≠ "" →
      (register_node s req now).2 = true ∧
      (register_node s req now).1.get_node req.name
        = some { name := req.name, address := req.address, port := req.port
                 capacity := req.capacity, allocatable := req.capacity
                 used := ⟨0, 0⟩, status := .Ready, last_heartbeat := now } := by
  intro s req now h
  unfold register_node
  rw [if_neg h]
  exact ⟨rfl, get_node_register s _⟩

/-- C10 witness: re-registering `n1` (which had `used = {700, 700}` in
`storeH`) with a new address and capacity resets its accounting. -/
theorem register_node_overwrites_witness :
    (register_node storeH ⟨"n1", "h2", 9000, ⟨2000, 2048⟩⟩ 7).2 = true ∧
    (register_node storeH ⟨"n1", "h2", 9000, ⟨2000, 2048⟩⟩ 7).1.get_node "n1"
      = some { name := "n1", address := "h2", port := 9000, capacity := ⟨2000, 2048⟩
               allocatable := ⟨2000, 2048⟩, used := ⟨0, 0⟩, status := .Ready
               last_heartbeat := 7 } :=
  register_node_overwrites storeH ⟨"n1", "h2", 9000, ⟨2000, 2048⟩⟩ 7 (by decide)

/-- C8: when the agent call for the chosen node fails, the scheduler marks the
pod Failed, restores the store's accounting for that node (the earlier
allocation is exactly undone), and releases the per-cycle cache reservation,
so the cache seen by later pods in the same cycle equals the cache before
this pod was scheduled. -/
theorem scheduler_failure_recovery :
    ∀ (s : Store) (cache : List NodeCacheEntry) (pod_id : Nat) (r : Resources)
      (idx : Nat) (e : NodeCacheEntry) (node : Node),
      cache.get? idx = some e →
      (cache.map NodeCacheEntry.name).Nodup →
      e.can_fit r = true →
      e.available.cpu_millis ≤ U32MAX →
      e.available.memory_mb ≤ U32MAX →
      s.get_node e.name = some node →
      node.can_fit r = true →
      (scheduleStepFail s cache pod_id r idx).1.get_pod pod_id
          = (s.get_pod pod_id).map
              (fun p => { p with node_name := some e.name, status := .Failed }) ∧
      (scheduleStepFail s cache pod_id r idx).1.get_node e.name = s.get_node e.name ∧
      (scheduleStepFail s cache pod_id r idx).2 = cache := by
  intro s cache pod_id r idx e node hget hnodup hfits hcpu hmem hnode hncf
  have hsel : scheduleStepFail s cache pod_id r idx
      = bind_pod_fail s (cache.set idx (e.reserve r)) pod_id r e.name := by
    unfold scheduleStepFail
    rw [hget]
  rw [hsel]
  unfold bind_pod_fail
  refine ⟨?_, ?_, ?_⟩
  · rw [get_pod_dealloc, update_pod_status_update_pod_status, get_pod_update_pod_status,
      get_pod_alloc, get_pod_assign]
    cases s.get_pod pod_id <;> rfl
  · rw [get_node_dealloc, get_node_update_pod_status, get_node_update_pod_status,
      get_node_alloc, get_node_assign, hnode]
    simp only [Option.map_some', hncf, if_true]
    rw [Option.some.injEq]
    cases node with
    | mk name address port capacity allocatable used status lhb =>
      cases used with
      | mk uc um => simp
  · exact release_node_reservation_set cache idx e r hget hnodup hfits hcpu hmem

/-- C8 witness: the recovery statement applied to `storeW` / `cacheW` with
pod 9 requesting 500m/512MB on node `n1`. -/
theorem scheduler_failure_recovery_witness :
    (scheduleStepFail storeW cacheW 9 ⟨500, 512⟩ 0).1.get_pod 9
        = some { podW with node_name := some "n1", status := .Failed } ∧
    (scheduleStepFail storeW cacheW 9 ⟨500, 512⟩ 0).1.get_node "n1"
        = storeW.get_node "n1" ∧
    (scheduleStepFail storeW cacheW 9 ⟨500, 512⟩ 0).2 = cacheW :=
  scheduler_failure_recovery storeW cacheW 9 ⟨500, 512⟩ 0
    { name := "n1", endpoint := "e1", available := ⟨3500, 3596⟩, capacity := ⟨4000, 4096⟩ }
    nodeW rfl (by decide) (by decide) (by decide) (by decide) (by decide) (by decide)

/-- C5 counterexample: deployment `web` has replicas 2 and one active pod
named `web-3`, so `cur = 1 < 2 = des` and one pod is created.  The code
starts its index scan at `cur + i = 1` and creates `web-1`; the claim's rule
(first free integers from 0) would pick index 0, i.e. `web-0`. -/
theorem reconcile_normal_index_cex :
    (reconcile_normal dN storeN [50]).2.1.map Pod.name = ["web-1"] ∧
    (claimFreeIndices (activeNamesFor storeN.pods "web") "web" 1).map (mkPodName "web")
      = ["web-0"] ∧
    (["web-1"] : List String) ≠ ["web-0"] := by
  exact ⟨by decide, by decide, by decide⟩

/-- C5 (amended): when `cur < des`, scale reconcile creates exactly
`des − cur` pods, each `Pending` with revision `d.revision`; the index for
the i-th pod is found by scanning upward from `cur + i` (not from 0) for a
name not currently active, so every created name avoids all previously
active names and the created names are pairwise distinct. -/
theorem reconcile_normal_scale_up :
    ∀ (d : Deployment) (s : Store) (ids : List Nat),
      s.count_active_pods_for_deployment d.name < d.replicas →
      d.replicas - s.count_active_pods_for_deployment d.name ≤ ids.length →
      ids.Nodup →
      (∀ x ∈ ids, ∀ p ∈ s.pods, p.id ≠ x) →
      (reconcile_normal d s ids).2.1.length
          = d.replicas - s.count_active_pods_for_deployment d.name ∧
      (∀ p ∈ (reconcile_normal d s ids).2.1,
        p.status = .Pending ∧ p.revision = d.revision ∧
          p.deployment_name = some d.name) ∧
      (∀ p ∈ (reconcile_normal d s ids).2.1, p.name ∉ activeNamesFor s.pods d.name) ∧
      ((reconcile_normal d s ids).2.1.map Pod.name).Nodup ∧
      (reconcile_normal d s ids).2.2 = [] := by
  intro d s ids hlt hlen hnd hfresh
  have hsel : reconcile_normal d s ids
      = ((scaleUpLoop d (s.count_active_pods_for_deployment d.name) s
            (d.replicas - s.count_active_pods_for_deployment d.name) 0 ids).1,
         (scaleUpLoop d (s.count_active_pods_for_deployment d.name) s
            (d.replicas - s.count_active_pods_for_deployment d.name) 0 ids).2, []) := by
    unfold reconcile_normal
    rw [if_pos hlt]
  rw [hsel]
  have hspec := scaleUpLoop_spec d (s.count_active_pods_for_deployment d.name)
    (d.replicas - s.count_active_pods_for_deployment d.name) 0 s ids hlen hnd hfresh
  refine ⟨scaleUpLoop_length d _ _ 0 s ids, ?_, hspec.2.1, hspec.2.2, rfl⟩
  intro p hp
  have hs := scaleUpLoop_shape d (s.count_active_pods_for_deployment d.name)
    (d.replicas - s.count_active_pods_for_deployment d.name) 0 s ids p hp
  exact ⟨hs.1, hs.2.1, hs.2.2.1⟩

/-- C5 witness: the amended statement applied to `dN` / `storeN`. -/
theorem reconcile_normal_scale_up_witness :
    (reconcile_normal dN storeN [50]).2.1.length = 1 ∧
    ((reconcile_normal dN storeN [50]).2.1.map Pod.name).Nodup ∧
    (reconcile_normal dN storeN [50]).2.2 = [] := by
  have h := reconcile_normal_scale_up dN storeN [50] (by decide) (by decide) (by decide)
    (by decide)
  exact ⟨h.1, h.2.2.2.1, h.2.2.2.2⟩

/-- C3 counterexample: deployment `web` at revision 2 (replicas 2, surge 0)
with one Running and one Terminating revision-1 pod.  A rolling-update tick
is in progress (`get_old_revision_pods` is nonempty), and the code creates
one new pod — its `old_total` excludes the Terminating pod — while the
claim's formula (with `total_pods` = active pods at all revisions, which
counts the Terminating pod) yields zero. -/
theorem rolling_surge_cex :
    storeR.get_old_revision_pods "web" 2 ≠ [] ∧
    ((reconcile_rolling_update dR storeR [60]).2.1.length : Int) = 1 ∧
    claim_to_create dR storeR = 0 ∧ (1 : Int) ≠ 0 := by
  exact ⟨by decide, by decide, by decide, by decide⟩

/-- C3 (amended): on a rolling-update tick the number of new-revision pods
created is `min(desired − new_total, (desired + surge) − total_pods)` clamped
at 0, where `new_total` counts pods of the current revision that are not
Terminated/Failed, but `total_pods = new_total + old_total` with `old_total`
counting only old-revision pods that are not Terminated, *Terminating*, or
Failed (the asymmetry is the correction); every created pod is Pending with
revision `d.revision`. -/
theorem rolling_surge_amended :
    ∀ (d : Deployment) (s : Store) (ids : List Nat),
      (reconcile_rolling_update d s ids).2.1.length
          = min (d.replicas + d.rolling_update.max_surge
                  - (s.count_active_pods_for_revision d.name d.revision
                     + (s.get_old_revision_pods d.name d.revision).length))
                (d.replicas - s.count_active_pods_for_revision d.name d.revision) ∧
      ((reconcile_rolling_update d s ids).2.1.length : Int)
          = max 0 (min (((d.replicas : Int) + d.rolling_update.max_surge)
                  - ((s.count_active_pods_for_revision d.name d.revision : Int)
                     + ((s.get_old_revision_pods d.name d.revision).length : Int)))
                ((d.replicas : Int)
                  - (s.count_active_pods_for_revision d.name d.revision : Int))) ∧
      ∀ p ∈ (reconcile_rolling_update d s ids).2.1,
        p.revision = d.revision ∧ p.status = .Pending := by
  intro d s ids
  have h1 : (reconcile_rolling_update d s ids).2.1
      = (scaleUpLoop d (s.count_active_pods_for_revision d.name d.revision) s
          (min (d.replicas + d.rolling_update.max_surge
                 - (s.count_active_pods_for_revision d.name d.revision
                    + (s.get_old_revision_pods d.name d.revision).length))
               (d.replicas - s.count_active_pods_for_revision d.name d.revision)) 0
          ids).2 := rfl
  refine ⟨?_, ?_, ?_⟩
  · rw [h1, scaleUpLoop_length]
  · rw [h1, scaleUpLoop_length]
    omega
  · intro p hp
    rw [h1] at hp
    have hs := scaleUpLoop_shape d _ _ 0 s ids p hp
    exact ⟨hs.2.1, hs.1⟩

/-- C4: on a rolling-update tick the number of old-revision pods selected for
termination is `min(excess, old_running)` when `new_running > 0` or
`max_unavailable > 0` and zero otherwise, where
`excess = total_running − min_available` (saturating) and
`min_available = desired − max_unavailable` (saturating); the victims are
drawn from the old-revision pods that are not Terminated/Terminating/Failed,
ordered by name descending (the selected names dominate every unselected
eligible pod's name). -/
theorem rolling_retire_old :
    ∀ (d : Deployment) (s : Store) (ids : List Nat),
      min (d.replicas + d.rolling_update.max_surge
            - (s.count_active_pods_for_revision d.name d.revision
               + (s.get_old_revision_pods d.name d.revision).length))
          (d.replicas - s.count_active_pods_for_revision d.name d.revision)
        ≤ ids.length →
      ids.Nodup →
      (∀ x ∈ ids, ∀ p ∈ s.pods, p.id ≠ x) →
      ((reconcile_rolling_update d s ids).2.2.length
        = if 0 < s.count_running_pods_for_revision d.name d.revision
             ∨ 0 < d.rolling_update.max_unavailable
          then min ((s.count_running_pods_for_revision d.name d.revision
                     + oldRunningCount d s)
                    - (d.replicas - d.rolling_update.max_unavailable))
                   (oldRunningCount d s)
          else 0) ∧
      ∃ l : List Pod,
        (reconcile_rolling_update d s ids).2.2 = l.map Pod.id ∧
        List.Sorted podNameGe l ∧
        (∀ p ∈ l, p ∈ s.pods ∧ p.isOldEligible d.name d.revision = true) ∧
        (∀ p ∈ s.pods, p.isOldEligible d.name d.revision = true →
          p ∉ l → ∀ q ∈ l, p.name ≤ q.name) := by
  intro d s ids hlen hnd hfresh
  have hres : (reconcile_rolling_update d s ids).2.2
      = if 0 < rollingCanTerminate d s
            ∧ 0 < (s.get_old_revision_pods d.name d.revision).length then
          (scaleUpLoop d (s.count_active_pods_for_revision d.name d.revision) s
              (rollingToCreate d s) 0 ids).1.get_old_pods_to_terminate d.name d.revision
            (rollingCanTerminate d s)
        else [] := rfl
  have hlen' : rollingToCreate d s ≤ ids.length := hlen
  have hspec := scaleUpLoop_spec d (s.count_active_pods_for_revision d.name d.revision)
    (rollingToCreate d s) 0 s ids hlen' hnd hfresh
  have hfilter : ((scaleUpLoop d (s.count_active_pods_for_revision d.name d.revision) s
        (rollingToCreate d s) 0 ids).1.pods.filter
        (fun p => p.isOldEligible d.name d.revision))
      = s.pods.filter (fun p => p.isOldEligible d.name d.revision) := by
    rw [hspec.1, List.filter_append]
    have hnil : ((scaleUpLoop d (s.count_active_pods_for_revision d.name d.revision) s
        (rollingToCreate d s) 0 ids).2.filter
          (fun p => p.isOldEligible d.name d.revision)) = [] := by
      rw [List.filter_eq_nil_iff]
      intro p hp
      have hrev := (scaleUpLoop_shape d _ _ 0 s ids p hp).2.1
      simp [Pod.isOldEligible, hrev]
    rw [hnil, List.append_nil]
  have hcteq : rollingCanTerminate d s
      = if 0 < s.count_running_pods_for_revision d.name d.revision
            ∨ 0 < d.rolling_update.max_unavailable then
          min (s.count_running_pods_for_revision d.name d.revision + oldRunningCount d s
                - (d.replicas - d.rolling_update.max_unavailable))
              (oldRunningCount d s)
        else 0 := by
    unfold rollingCanTerminate
    by_cases h2 : d.replicas - d.rolling_update.max_unavailable
        < s.count_running_pods_for_revision d.name d.revision + oldRunningCount d s
    · rw [if_pos h2]
    · rw [if_neg h2]
      by_cases hg : 0 < s.count_running_pods_for_revision d.name d.revision
          ∨ 0 < d.rolling_update.max_unavailable
      · rw [if_pos hg]
        have hz : s.count_running_pods_for_revision d.name d.revision + oldRunningCount d s
            - (d.replicas - d.rolling_update.max_unavailable) = 0 := by omega
        rw [hz]
        simp
      · rw [if_neg hg]
  have horle : oldRunningCount d s ≤ (s.get_old_revision_pods d.name d.revision).length :=
    List.length_filter_le _ _
  have hslen : (((s.pods.filter (fun p => p.isOldEligible d.name d.revision)).insertionSort
      podNameGe).length) = (s.get_old_revision_pods d.name d.revision).length := by
    rw [(List.perm_insertionSort podNameGe _).length_eq]
    rfl
  by_cases hct0 : rollingCanTerminate d s = 0
  · have hvict : (reconcile_rolling_update d s ids).2.2 = [] := by
      rw [hres, if_neg]
      intro hcontra
      rw [hct0] at hcontra
      exact absurd hcontra.1 (lt_irrefl 0)
    constructor
    · rw [hvict]
      show 0 = _
      rw [← hcteq, hct0]
    · refine ⟨[], by rw [hvict]; rfl, List.sorted_nil, ?_, ?_⟩
      · intro p hp
        simp at hp
      · intro p _ _ _ q hq
        simp at hq
  · have hctpos : 0 < rollingCanTerminate d s := Nat.pos_of_ne_zero hct0
    have hctle : rollingCanTerminate d s ≤ oldRunningCount d s := by
      rw [hcteq]
      split
      · exact min_le_right _ _
      · exact Nat.zero_le _
    have hotpos : 0 < (s.get_old_revision_pods d.name d.revision).length :=
      lt_of_lt_of_le (lt_of_lt_of_le hctpos hctle) horle
    have hvict : (reconcile_rolling_update d s ids).2.2
        = (((s.pods.filter (fun p => p.isOldEligible d.name d.revision)).insertionSort
            podNameGe).take (rollingCanTerminate d s)).map (fun p => p.id) := by
      rw [hres, if_pos ⟨hctpos, hotpos⟩]
      unfold Store.get_old_pods_to_terminate
      rw [hfilter]
    constructor
    · rw [hvict, List.length_map, List.length_take, hslen, ← hcteq]
      omega
    · refine ⟨((s.pods.filter (fun p => p.isOldEligible d.name d.revision)).insertionSort
          podNameGe).take (rollingCanTerminate d s), hvict, ?_, ?_, ?_⟩
      · exact List.Pairwise.sublist (List.take_sublist _ _)
          (List.sorted_insertionSort podNameGe _)
      · intro p hp
        have hmemfull : p ∈ (s.pods.filter
            (fun p => p.isOldEligible d.name d.revision)).insertionSort podNameGe :=
          (List.take_sublist _ _).subset hp
        rw [List.mem_insertionSort] at hmemfull
        exact ⟨(List.mem_filter.mp hmemfull).1, (List.mem_filter.mp hmemfull).2⟩
      · intro p hps hpe hpnotin q hq
        have hsorted := List.sorted_insertionSort podNameGe
          (s.pods.filter (fun p => p.isOldEligible d.name d.revision))
        have hsplit := List.take_append_drop (rollingCanTerminate d s)
          ((s.pods.filter (fun p => p.isOldEligible d.name d.revision)).insertionSort
            podNameGe)
        have hpfull : p ∈ (s.pods.filter
            (fun p => p.isOldEligible d.name d.revision)).insertionSort podNameGe := by
          rw [List.mem_insertionSort]
          exact List.mem_filter.mpr ⟨hps, hpe⟩
        rw [← hsplit] at hpfull
        have hpairs : List.Pairwise podNameGe
            ((((s.pods.filter (fun p => p.isOldEligible d.name d.revision)).insertionSort
                podNameGe).take (rollingCanTerminate d s))
              ++ (((s.pods.filter
                  (fun p => p.isOldEligible d.name d.revision)).insertionSort
                podNameGe).drop (rollingCanTerminate d s))) := by
          rw [hsplit]
          exact hsorted
        rcases List.mem_append.mp hpfull with h | h
        · exact absurd h hpnotin
        · exact (List.pairwise_append.mp hpairs).2.2 q hq p h

/-- Deployment `web` at revision 2 with surge 1 / unavailable 0. -/
def dR2 : Deployment :=
  { name := "web", image := "nginx:2", replicas := 2, resources := ⟨100, 128⟩
    rolling_update := { max_surge := 1, max_unavailable := 0 }, revision := 2 }

/-- A second revision-1 running pod of `web`. -/
def podOld2 : Pod :=
  { id := 13, name := "web-1", image := "nginx:1", resources := ⟨100, 128⟩
    deployment_name := some "web", status := .Running, container_id := none
    node_name := some "n1", revision := 1 }

/-- A revision-2 running pod of `web`. -/
def podNew2 : Pod :=
  { id := 14, name := "web-2", image := "nginx:2", resources := ⟨100, 128⟩
    deployment_name := some "web", status := .Running, container_id := none
    node_name := some "n1", revision := 2 }

/-- Mid-rolling-update store: two old running pods, one new running pod. -/
def storeR2 : Store :=
  { deployments := [], pods := [podOldRun, podOld2, podNew2], nodes := [] }

/-- C4 witness: in `storeR2` (desired 2, unavailable 0, one new pod Running,
two old pods Running) exactly `min(3 − 2, 2) = 1` old pod is selected for
termination. -/
theorem rolling_retire_old_witness :
    (reconcile_rolling_update dR2 storeR2 []).2.2.length = 1 := by
  have h := (rolling_retire_old dR2 storeR2 [] (by decide) (by decide) (by decide)).1
  rw [h]
  decide

/-- The state reached from the empty system by creating pod `podU` and then
letting the scheduler assign it to node `n1` (first half of a binding). -/
def sysReach : SystemState :=
  { store := ((((initState.store.add_pod podU).assign_pod_to_node 3
      "n1").allocate_resources_on_node "n1" podU.resources).update_pod_status 3 .Creating)
    agents := [] }

/-- `sysReach` is reachable: create the pod, then assign it. -/
theorem sysReach_reachable : Reachable sysReach := by
  have h1 : Step initState { initState with store := initState.store.add_pod podU } :=
    Step.createPod initState podU rfl rfl (by decide) (by decide)
  have h2 : Step { initState with store := initState.store.add_pod podU } sysReach :=
    Step.bindAssign { initState with store := initState.store.add_pod podU } 3 "n1" podU
      (by decide) rfl rfl
  exact Reachable.step (Reachable.step Reachable.init h1) h2

/-- C6: in every system state reachable from the empty store by the modelled
operations — reconciler pod creation, scheduler binding (assignment, agent
success, agent failure), agent heartbeats reporting pods from that agent's
local map, pod termination (including the revert-to-Running branch) and GC —
every pod whose status is Running or Creating has a node assigned. -/
theorem running_or_creating_has_node :
    ∀ (s : SystemState), Reachable s →
      ∀ p ∈ s.store.pods, (p.status = .Running ∨ p.status = .Creating) →
        p.node_name ≠ none :=
  fun _ h => (inv_reachable h).2.2

/-- C6 witness: in the reachable state `sysReach` the bound Creating pod has
a node assigned. -/
theorem running_or_creating_has_node_witness :
    ({ podU with node_name := some "n1", status := PodStatus.Creating } : Pod).node_name
      ≠ none := by
  apply running_or_creating_has_node sysReach sysReach_reachable
  · decide
  · exact Or.inr rfl
